import Mathlib

/-!
In-memory task/user service: store, service layer and their contracts

A shallow embedding of the Go packages `internal/domain`, `internal/db` and
`internal/service`.

* Go slices are lists; a method with a pointer receiver that mutates the store
  becomes a function returning its result together with the new store.
* A Go result `(T, error)` is `Except Error T`; a nilable pointer result is an
  `Option`.
* Go `int` is taken at 64 bits.  Values are carried in `Int`; the only
  arithmetic the code performs on an arbitrary `int` is `maxID + 1`, which is
  wrapped with `wrapInt` the way the machine addition wraps.
* The read/write lock makes every store method atomic; the embedding is the
  sequential behaviour of one method call.
-/

namespace TaskRepo

/-! ## Go `int` -/

/-- Largest value of a 64-bit Go `int`. -/
def maxInt : Int := 2 ^ 63 - 1

/-- Smallest value of a 64-bit Go `int`. -/
def minInt : Int := -(2 ^ 63)

/-- Two's complement wrap-around of a mathematical integer into a 64-bit `int`. -/
def wrapInt (x : Int) : Int := (x + 2 ^ 63) % 2 ^ 64 - 2 ^ 63

/-! ## `internal/domain/models.go` -/

structure User where
  ID : Int
  Name : String
  Email : String
  Role : String
deriving DecidableEq, Repr

structure Task where
  ID : Int
  Title : String
  Status : String
  UserID : Int
deriving DecidableEq, Repr

structure UsersStats where
  Total : Int
deriving DecidableEq, Repr

structure TasksStats where
  Total : Int
  Pending : Int
  InProgress : Int
  Completed : Int
deriving DecidableEq, Repr

structure Stats where
  Users : UsersStats
  Tasks : TasksStats
deriving DecidableEq, Repr

/-! ## Sentinel errors of `internal/db` and `internal/service` -/

inductive Error where
  | ErrTaskNotFound
  | ErrNotFound
  | ErrInvalidStatus
  | ErrInvalidUser
  | ErrNoUpdateFields
deriving DecidableEq, Repr

/-! ## `internal/db/datastore.go` -/

structure DataStore where
  users : List User
  tasks : List Task
deriving DecidableEq, Repr

/-- The seeded store built by `NewDataStore`. -/
def NewDataStore : DataStore :=
  { users :=
      [ { ID := 1, Name := "John Doe", Email := "john@example.com", Role := "developer" },
        { ID := 2, Name := "Jane Smith", Email := "jane@example.com", Role := "designer" },
        { ID := 3, Name := "Bob Johnson", Email := "bob@example.com", Role := "manager" } ],
    tasks :=
      [ { ID := 1, Title := "Implement authentication", Status := "pending", UserID := 1 },
        { ID := 2, Title := "Design user interface", Status := "in-progress", UserID := 2 },
        { ID := 3, Title := "Review code changes", Status := "completed", UserID := 3 } ] }

namespace DataStore

def ListUsers (ds : DataStore) : List User := ds.users

/-- Linear scan returning a copy of the first user whose id is `id`. -/
def GetUserByID (ds : DataStore) (id : Int) : Option User :=
  ds.users.find? (fun u => u.ID == id)

/-- The `maxID` loop of `CreateUser`: starts at 0 and keeps the larger id. -/
def maxUserID (users : List User) : Int :=
  users.foldl (fun maxID existing => if existing.ID > maxID then existing.ID else maxID) 0

def CreateUser (ds : DataStore) (user : User) : Except Error User × DataStore :=
  let maxID := maxUserID ds.users
  let user := { user with ID := wrapInt (maxID + 1) }
  (.ok user, { ds with users := ds.users ++ [user] })

def ListTasks (ds : DataStore) : List Task := ds.tasks

/-- The `maxID` loop of `CreateTask`. -/
def maxTaskID (tasks : List Task) : Int :=
  tasks.foldl (fun maxID existing => if existing.ID > maxID then existing.ID else maxID) 0

def CreateTask (ds : DataStore) (task : Task) : Except Error Task × DataStore :=
  let maxID := maxTaskID ds.tasks
  let task := { task with ID := wrapInt (maxID + 1) }
  (.ok task, { ds with tasks := ds.tasks ++ [task] })

/-- The field assignments made to the located task by `UpdateTask`. -/
def applyUpdate (title status : Option String) (userID : Option Int) (t : Task) : Task :=
  let t := match title with
    | some v => { t with Title := v }
    | none => t
  let t := match status with
    | some v => { t with Status := v }
    | none => t
  match userID with
  | some v => { t with UserID := v }
  | none => t

/-- The loop of `UpdateTask`: skips tasks with another id, updates the first
task with id `id` in place and returns its copy; `none` when the loop ends
without a match. -/
def updateLoop (id : Int) (title status : Option String) (userID : Option Int) :
    List Task → Option (Task × List Task)
  | [] => none
  | t :: rest =>
    if t.ID ≠ id then
      match updateLoop id title status userID rest with
      | some (r, rest') => some (r, t :: rest')
      | none => none
    else
      let t' := applyUpdate title status userID t
      some (t', t' :: rest)

def UpdateTask (ds : DataStore) (id : Int) (title status : Option String)
    (userID : Option Int) : Except Error Task × DataStore :=
  match updateLoop id title status userID ds.tasks with
  | some (t, tasks') => (.ok t, { ds with tasks := tasks' })
  | none => (.error Error.ErrTaskNotFound, ds)

/-- One iteration of the counting loop of `GetStats`. -/
def countStatus (stats : Stats) (task : Task) : Stats :=
  if task.Status = "pending" then
    { stats with Tasks := { stats.Tasks with Pending := stats.Tasks.Pending + 1 } }
  else if task.Status = "in-progress" then
    { stats with Tasks := { stats.Tasks with InProgress := stats.Tasks.InProgress + 1 } }
  else if task.Status = "completed" then
    { stats with Tasks := { stats.Tasks with Completed := stats.Tasks.Completed + 1 } }
  else stats

/-- Totals are slice lengths and each counter is incremented at most once per
task, so no counter exceeds a slice length and none can overflow. -/
def GetStats (ds : DataStore) : Stats :=
  let stats : Stats :=
    { Users := { Total := ds.users.length },
      Tasks := { Total := ds.tasks.length, Pending := 0, InProgress := 0, Completed := 0 } }
  ds.tasks.foldl countStatus stats

end DataStore

/-! ## `strconv.Atoi` (Go standard library) -/

def isDigit (c : Char) : Bool := decide ('0' ≤ c) && decide (c ≤ '9')

/-- Value of a digit string read left to right, `n = n*10 + (ch - '0')`. -/
def digitsValue (cs : List Char) : Nat :=
  cs.foldl (fun n ch => n * 10 + (ch.toNat - 48)) 0

/-- Splits an optional leading sign off; the flag is true for `-`. -/
def splitSign : List Char → Bool × List Char
  | '-' :: rest => (true, rest)
  | '+' :: rest => (false, rest)
  | cs => (false, cs)

/-- Base-10 `strconv.Atoi` for a 64-bit `int`: an optional sign followed by at
least one decimal digit and nothing else, whose value fits in `int`; every
other string is an error (`none`). -/
def Atoi (s : String) : Option Int :=
  let (neg, digits) := splitSign s.toList
  if digits = [] then none
  else if digits.all isDigit then
    let n : Int := digitsValue digits
    let v : Int := if neg then -n else n
    if minInt ≤ v ∧ v ≤ maxInt then some v else none
  else none

/-! ## `internal/service/service.go` over the in-memory store -/

def isValidStatus (status : String) : Bool :=
  if status = "pending" ∨ status = "in-progress" ∨ status = "completed" then true
  else false

structure TaskUpdateInput where
  Title : Option String
  Status : Option String
  UserID : Option Int
deriving DecidableEq, Repr

namespace Service

def ListUsers (ds : DataStore) : List User := ds.ListUsers

def GetUserByID (ds : DataStore) (id : Int) : Except Error User :=
  match ds.GetUserByID id with
  | none => .error Error.ErrNotFound
  | some user => .ok user

def CreateUser (ds : DataStore) (user : User) : Except Error User × DataStore :=
  ds.CreateUser user

/-- One iteration of the filtering loop of `ListTasks`. -/
def filterStep (status userID : String) (uid : Int) (filtered : List Task) (task : Task) :
    List Task :=
  if status ≠ "" ∧ task.Status ≠ status then filtered
  else if userID ≠ "" ∧ task.UserID ≠ uid then filtered
  else filtered ++ [task]

def ListTasks (ds : DataStore) (status userID : String) : List Task :=
  let tasks := ds.ListTasks
  if status = "" ∧ userID = "" then tasks
  else
    let parsed : Option Int := if userID ≠ "" then Atoi userID else some 0
    match parsed with
    | none => []
    | some uid => tasks.foldl (filterStep status userID uid) []

def CreateTask (ds : DataStore) (task : Task) : Except Error Task × DataStore :=
  if !isValidStatus task.Status then (.error Error.ErrInvalidStatus, ds)
  else if (ds.GetUserByID task.UserID).isNone then (.error Error.ErrInvalidUser, ds)
  else ds.CreateTask task

/-- The guard `input.Status != nil && !isValidStatus(*input.Status)`. -/
def statusRejected (input : TaskUpdateInput) : Bool :=
  match input.Status with
  | some st => !isValidStatus st
  | none => false

/-- The guard `input.UserID != nil` with `GetUserByID(*input.UserID) == nil`. -/
def userRejected (ds : DataStore) (input : TaskUpdateInput) : Bool :=
  match input.UserID with
  | some uid => (ds.GetUserByID uid).isNone
  | none => false

def UpdateTask (ds : DataStore) (id : Int) (input : TaskUpdateInput) :
    Except Error Task × DataStore :=
  if input.Title = none ∧ input.Status = none ∧ input.UserID = none then
    (.error Error.ErrNoUpdateFields, ds)
  else if statusRejected input then (.error Error.ErrInvalidStatus, ds)
  else if userRejected ds input then (.error Error.ErrInvalidUser, ds)
  else
    match ds.UpdateTask id input.Title input.Status input.UserID with
    | (.error err, ds') =>
      if err = Error.ErrTaskNotFound then (.error Error.ErrNotFound, ds')
      else (.error err, ds')
    | (.ok updatedTask, ds') => (.ok updatedTask, ds')

def GetStats (ds : DataStore) : Stats := ds.GetStats

end Service

/-! ## `internal/server/server.go`

A handler is a function of the request parts it reads: the method, the URL
path or query values, and the result of `json.Decode` on the body (`none` when
decoding fails).  It returns the response it writes and the store afterwards. -/

/-- Status codes of `net/http` used by the handlers. -/
def StatusOK : Int := 200

def StatusCreated : Int := 201

def StatusBadRequest : Int := 400

def StatusNotFound : Int := 404

def StatusMethodNotAllowed : Int := 405

def StatusInternalServerError : Int := 500

/-- What is written as the response payload: the text given to `http.Error`, or
the value encoded by `respondJSON`. -/
inductive Body where
  | text (msg : String)
  | user (user : User)
  | task (task : Task)
  | users (users : List User) (count : Int)
  | tasks (tasks : List Task) (count : Int)
deriving DecidableEq, Repr

structure Response where
  status : Int
  body : Body
deriving DecidableEq, Repr

/-- The response written by `http.Error(w, msg, code)`. -/
def httpError (msg : String) (code : Int) : Response := { status := code, body := .text msg }

def respondJSON (status : Int) (payload : Body) : Response :=
  { status := status, body := payload }

/-- The text of `err.Error()` for the sentinel errors. -/
def Error.message : Error → String
  | .ErrTaskNotFound => "task not found"
  | .ErrNotFound => "resource not found"
  | .ErrInvalidStatus => "invalid status"
  | .ErrInvalidUser => "invalid user"
  | .ErrNoUpdateFields => "no fields to update"

/-- Go `strings.Contains`: `substr` occurs in `s` as a contiguous run. -/
def Contains (s substr : String) : Bool := decide (substr.toList <:+: s.toList)

/-- Go `strings.TrimPrefix`: `s` without the leading `pre` when it starts with
it, `s` itself otherwise. -/
def TrimPrefix (s pre : String) : String :=
  if pre.toList.isPrefixOf s.toList then String.mk (s.toList.drop pre.toList.length) else s

namespace Server

def handleUsers (ds : DataStore) (method : String) (decoded : Option User) :
    Response × DataStore :=
  if method = "GET" then
    let users := Service.ListUsers ds
    (respondJSON StatusOK (.users users users.length), ds)
  else if method = "POST" then
    match decoded with
    | none => (httpError "Invalid request body" StatusBadRequest, ds)
    | some user =>
      if user.Name = "" ∨ user.Email = "" ∨ user.Role = "" ∨ ¬ Contains user.Email "@" then
        (httpError "Missing required fields" StatusBadRequest, ds)
      else
        let users := Service.ListUsers ds
        if users.any (fun u => u.Email == user.Email) then
          (httpError "Email already exists" StatusBadRequest, ds)
        else
          match Service.CreateUser ds user with
          | (.error _, ds') => (httpError "Failed to create user" StatusInternalServerError, ds')
          | (.ok created, ds') => (respondJSON StatusCreated (.user created), ds')
  else (httpError "Method not allowed" StatusMethodNotAllowed, ds)

def handleUserByID (ds : DataStore) (method path : String) : Response :=
  if method ≠ "GET" then httpError "Method not allowed" StatusMethodNotAllowed
  else
    let idStr := TrimPrefix path "/api/users/"
    match Atoi idStr with
    | none => httpError "Invalid user ID" StatusBadRequest
    | some userID =>
      match Service.GetUserByID ds userID with
      | .error err =>
        let status :=
          if err = Error.ErrNotFound then StatusNotFound else StatusInternalServerError
        httpError "User not found" status
      | .ok user => respondJSON StatusOK (.user user)

/-- `status` and `userID` are the query values `status` and `userId`. -/
def handleTasks (ds : DataStore) (method status userID : String) (decoded : Option Task) :
    Response × DataStore :=
  if method = "GET" then
    let tasks := Service.ListTasks ds status userID
    (respondJSON StatusOK (.tasks tasks tasks.length), ds)
  else if method = "POST" then
    match decoded with
    | none => (httpError "Invalid request body" StatusBadRequest, ds)
    | some task =>
      if task.Title = "" ∨ task.Status = "" ∨ task.UserID = 0 then
        (httpError "Missing required fields" StatusBadRequest, ds)
      else
        match Service.CreateTask ds task with
        | (.error err, ds') =>
          let status :=
            if err = Error.ErrInvalidStatus ∨ err = Error.ErrInvalidUser then StatusBadRequest
            else StatusInternalServerError
          (httpError err.message status, ds')
        | (.ok created, ds') => (respondJSON StatusCreated (.task created), ds')
  else (httpError "Method not allowed" StatusMethodNotAllowed, ds)

def handleTaskByID (ds : DataStore) (method path : String)
    (decoded : Option TaskUpdateInput) : Response × DataStore :=
  if method ≠ "PUT" then (httpError "Method not allowed" StatusMethodNotAllowed, ds)
  else
    let idStr := TrimPrefix path "/api/tasks/"
    match Atoi idStr with
    | none => (httpError "Invalid task ID" StatusBadRequest, ds)
    | some taskID =>
      match decoded with
      | none => (httpError "Invalid request body" StatusBadRequest, ds)
      | some payload =>
        match Service.UpdateTask ds taskID
            { Title := payload.Title, Status := payload.Status, UserID := payload.UserID } with
        | (.error err, ds') =>
          let status :=
            if err = Error.ErrNotFound then StatusNotFound
            else if err = Error.ErrInvalidStatus ∨ err = Error.ErrInvalidUser ∨
                err = Error.ErrNoUpdateFields then StatusBadRequest
            else StatusInternalServerError
          (httpError err.message status, ds')
        | (.ok updated, ds') => (respondJSON StatusOK (.task updated), ds')

end Server

/-! ## `internal/middleware/logger.go` -/

/-- The colour functions of `gommon/color` chosen by `loggingLine`. -/
inductive Color where
  | Green
  | Red
  | Yellow
  | Cyan
deriving DecidableEq, Repr

/-- The arguments `loggingLine` hands to `log.Printf`; `duration` is the
elapsed `time.Duration` measured by the caller. -/
structure LogLine where
  colorFn : Color
  level : String
  method : String
  path : String
  statusCode : Int
  duration : Int
deriving DecidableEq, Repr

def loggingLine (method path : String) (statusCode : Int) (duration : Int) : LogLine :=
  if statusCode ≥ 500 then
    { colorFn := .Red, level := "ERROR", method, path, statusCode, duration }
  else if statusCode ≥ 400 then
    { colorFn := .Yellow, level := "WARN", method, path, statusCode, duration }
  else if statusCode ≥ 300 then
    { colorFn := .Cyan, level := "INFO", method, path, statusCode, duration }
  else
    { colorFn := .Green, level := "INFO", method, path, statusCode, duration }

/-- The state of the `http.ResponseWriter` handed to the middleware by
`net/http` that matters here: whether the response header has been written. -/
structure ResponseWriter where
  wroteHeader : Bool
deriving DecidableEq, Repr

/-- `WriteHeader` of the `net/http` response.  Once the header has been written
the call is ignored.  Otherwise a code outside 100..999 makes
`checkWriteHeaderCode` panic (`none`), a 1xx code other than 101 is sent as an
informational header and leaves the header unwritten, and any other code
writes the header. -/
def ResponseWriter.WriteHeader (w : ResponseWriter) (code : Int) : Option ResponseWriter :=
  if w.wroteHeader then some w
  else if code < 100 ∨ code > 999 then none
  else if code ≥ 100 ∧ code ≤ 199 ∧ code ≠ 101 then some w
  else some { w with wroteHeader := true }

/-- `Write` of the `net/http` response: writes the header with status 200
first when it has not been written yet. -/
def ResponseWriter.Write (w : ResponseWriter) : ResponseWriter :=
  if w.wroteHeader then w else { w with wroteHeader := true }

structure responseRecoder where
  ResponseWriter : ResponseWriter
  statusCode : Int
deriving DecidableEq, Repr

/-- Records the code, then forwards the call to the embedded writer; `none`
when the forwarded call panics. -/
def responseRecoder.WriteHeader (r : responseRecoder) (statusCode : Int) :
    Option responseRecoder :=
  let r := { r with statusCode := statusCode }
  match r.ResponseWriter.WriteHeader statusCode with
  | none => none
  | some w => some { r with ResponseWriter := w }

/-- A call the wrapped handler makes on the `http.ResponseWriter` it is given.
Only `WriteHeader` is overridden by the recorder; `Header` and `Write` are
promoted from the embedded writer. -/
inductive WriterCall where
  | Header
  | Write (bytes : Nat)
  | WriteHeader (statusCode : Int)
deriving DecidableEq, Repr

/-- The recorder after one call of the handler; `none` when the call panics. -/
def responseRecoder.handle (r : responseRecoder) : WriterCall → Option responseRecoder
  | .Header => some r
  | .Write _ => some { r with ResponseWriter := r.ResponseWriter.Write }
  | .WriteHeader statusCode => r.WriteHeader statusCode

/-- The handler run `next.ServeHTTP(rec, r)`, given as the calls it makes in
order; a panicking call ends the run (`none`). -/
def responseRecoder.serve (r : responseRecoder) : List WriterCall → Option responseRecoder
  | [] => some r
  | call :: rest =>
    match r.handle call with
    | none => none
    | some r' => r'.serve rest

/-- The middleware for one request: `w` is the writer it is given, `next` the
sequence of calls the wrapped handler makes while serving the request,
`elapsed` the measured duration.  The line is logged only when the handler
returns; the middleware does not recover from a panic, so `none` stands for a
request that is not logged. -/
def Logger (w : ResponseWriter) (next : List WriterCall) (method path : String)
    (elapsed : Int) : Option LogLine :=
  let rec0 : responseRecoder := { ResponseWriter := w, statusCode := StatusOK }
  match rec0.serve next with
  | none => none
  | some rec1 => some (loggingLine method path rec1.statusCode elapsed)

/-! ## Specification-side vocabulary -/

/-- The id the specification promises to a created record: the largest
existing id plus one, or 1 when there is no existing id. -/
def nextIDSpec : List Int → Int
  | [] => 1
  | a :: rest => rest.foldl max a + 1

/-- A user value as decoded from a request body (id not yet assigned). -/
def sampleUser : User :=
  { ID := 0, Name := "Bo", Email := "bo@example.com", Role := "tester" }

/-- The `maxID` loop over a bare list of ids, from an arbitrary start value. -/
def maxIDLoop (ids : List Int) (init : Int) : Int :=
  ids.foldl (fun maxID x => if x > maxID then x else maxID) init

/-! ### Call sequences on the store -/

/-- A mutating call on the store, with its arguments. -/
inductive StoreCall where
  | createUser (user : User)
  | createTask (task : Task)
  | updateTask (id : Int) (title status : Option String) (userID : Option Int)
deriving DecidableEq, Repr

/-- The store after one call (the returned value is dropped). -/
def StoreCall.run (ds : DataStore) : StoreCall → DataStore
  | .createUser user => (ds.CreateUser user).2
  | .createTask task => (ds.CreateTask task).2
  | .updateTask id title status userID => (ds.UpdateTask id title status userID).2

/-- The store after a finite sequence of calls, executed left to right. -/
def runStoreCalls (ds : DataStore) (calls : List StoreCall) : DataStore :=
  calls.foldl StoreCall.run ds

/-- A mutating call on the service, with its arguments. -/
inductive ServiceCall where
  | createUser (user : User)
  | createTask (task : Task)
  | updateTask (id : Int) (input : TaskUpdateInput)
deriving DecidableEq, Repr

/-- The store after one service call, whether it succeeded or failed. -/
def ServiceCall.run (ds : DataStore) : ServiceCall → DataStore
  | .createUser user => (Service.CreateUser ds user).2
  | .createTask task => (Service.CreateTask ds task).2
  | .updateTask id input => (Service.UpdateTask ds id input).2

/-- The store after a finite sequence of service calls, executed left to right. -/
def runServiceCalls (ds : DataStore) (calls : List ServiceCall) : DataStore :=
  calls.foldl ServiceCall.run ds

/-- The ids of the stored users, in insertion order. -/
def userIDs (ds : DataStore) : List Int := ds.users.map User.ID

/-- The ids of the stored tasks, in insertion order. -/
def taskIDs (ds : DataStore) : List Int := ds.tasks.map Task.ID

/-- A task as decoded from a request body whose status is not a known one and
whose user does not exist in the seeded store. -/
def bogusTask : Task :=
  { ID := 0, Title := "Write report", Status := "bogus", UserID := 999 }

/-- A task with a valid status whose user does not exist in the seeded store. -/
def orphanTask : Task :=
  { ID := 0, Title := "Write report", Status := "pending", UserID := 999 }

/-- Invariant of an id column built by the `maxID + 1` rule from the seed: as long
as the slice length fits an `int`, the ids increase strictly and lie between 1
and the length. -/
def IdsInv (ids : List Int) : Prop :=
  (ids.length : Int) ≤ maxInt →
    ids.Pairwise (· < ·) ∧ ∀ x ∈ ids, 1 ≤ x ∧ x ≤ (ids.length : Int)

/-- A short sequence of store calls used to exhibit a reachable state. -/
def sampleStoreCalls : List StoreCall :=
  [ .createUser sampleUser, .createTask orphanTask,
    .updateTask 2 none (some "completed") none ]

/-! ### Vocabulary for `Service.UpdateTask` -/

/-- None of the three update fields is present. -/
def AllAbsent (input : TaskUpdateInput) : Prop :=
  input.Title = none ∧ input.Status = none ∧ input.UserID = none

/-- A status is present and is none of "pending", "in-progress", "completed". -/
def StatusInvalid (input : TaskUpdateInput) : Prop :=
  ∃ st, input.Status = some st ∧ st ≠ "pending" ∧ st ≠ "in-progress" ∧ st ≠ "completed"

/-- A userId is present and no stored user has that id. -/
def UserUnknown (ds : DataStore) (input : TaskUpdateInput) : Prop :=
  ∃ uid, input.UserID = some uid ∧ ∀ u ∈ ds.users, u.ID ≠ uid

/-- No stored task has the id `id`. -/
def TaskMissing (ds : DataStore) (id : Int) : Prop := ∀ t ∈ ds.tasks, t.ID ≠ id

instance (input : TaskUpdateInput) : Decidable (AllAbsent input) :=
  inferInstanceAs (Decidable (_ ∧ _ ∧ _))

instance (input : TaskUpdateInput) : Decidable (StatusInvalid input) :=
  match h : input.Status with
  | none => isFalse (by simp [StatusInvalid, h])
  | some st =>
    decidable_of_iff (st ≠ "pending" ∧ st ≠ "in-progress" ∧ st ≠ "completed")
      (by simp [StatusInvalid, h])

instance (ds : DataStore) (input : TaskUpdateInput) : Decidable (UserUnknown ds input) :=
  match h : input.UserID with
  | none => isFalse (by simp [UserUnknown, h])
  | some uid =>
    decidable_of_iff (∀ u ∈ ds.users, u.ID ≠ uid) (by simp [UserUnknown, h])

instance (ds : DataStore) (id : Int) : Decidable (TaskMissing ds id) :=
  inferInstanceAs (Decidable (∀ t ∈ ds.tasks, t.ID ≠ id))

/-- The error carried by a result, `none` for a success. -/
def errorOf {α : Type} : Except Error α → Option Error
  | .error e => some e
  | .ok _ => none

/-- The outcome the specification gives for `updateTask`, the checks being read
in the order they are listed, the first failing one deciding the error;
`none` stands for success. -/
def updateTaskSpec (ds : DataStore) (id : Int) (input : TaskUpdateInput) : Option Error :=
  if AllAbsent input then some Error.ErrNoUpdateFields
  else if StatusInvalid input then some Error.ErrInvalidStatus
  else if UserUnknown ds input then some Error.ErrInvalidUser
  else if TaskMissing ds id then some Error.ErrNotFound
  else none

/-- The task an update is specified to produce from `old`: each of title, status
and userId is the provided value when one is given and the old value otherwise;
the id is kept. -/
def updatedTaskSpec (input : TaskUpdateInput) (old : Task) : Task :=
  { ID := old.ID,
    Title := input.Title.getD old.Title,
    Status := input.Status.getD old.Status,
    UserID := input.UserID.getD old.UserID }

/-- The update `{"status":"completed"}`. -/
def statusOnlyInput : TaskUpdateInput :=
  { Title := none, Status := some "completed", UserID := none }

/-- The seeded store after task 2 has been set to "completed". -/
def seedAfterStatusUpdate : DataStore :=
  { NewDataStore with tasks :=
      [ { ID := 1, Title := "Implement authentication", Status := "pending", UserID := 1 },
        { ID := 2, Title := "Design user interface", Status := "completed", UserID := 2 },
        { ID := 3, Title := "Review code changes", Status := "completed", UserID := 3 } ] }

/-- Seeded task 2 with its status set to "completed". -/
def updatedSeedTask : Task :=
  { ID := 2, Title := "Design user interface", Status := "completed", UserID := 2 }

/-! ### Vocabulary for `Service.ListTasks` and `GetStats` -/

/-- The filter the specification describes for `ListTasks`: the status filter is
empty or equals the task status, and the userId filter is empty or its number
equals the task userId. -/
def matchesFilters (status userID : String) (n : Int) (t : Task) : Bool :=
  decide ((status = "" ∨ t.Status = status) ∧ (userID = "" ∨ t.UserID = n))

/-- An optionally signed, non-empty sequence of decimal digits. -/
def IsSignedDecimal (s : String) : Prop :=
  ∃ sign digits : List Char, s.toList = sign ++ digits ∧
    (sign = [] ∨ sign = ['+'] ∨ sign = ['-']) ∧ digits ≠ [] ∧ ∀ c ∈ digits, isDigit c = true

/-- Number of tasks whose status is exactly `status`. -/
def countWithStatus (tasks : List Task) (status : String) : Nat :=
  tasks.countP (fun t => decide (t.Status = status))

/-! ### Referential integrity -/

/-- Every stored task's userId is the id of some stored user. -/
def RefersToUsers (ds : DataStore) : Prop :=
  ∀ t ∈ ds.tasks, ∃ u ∈ ds.users, u.ID = t.UserID

/-- A sequence of service calls, some succeeding and some failing. -/
def sampleServiceCalls : List ServiceCall :=
  [ .createUser sampleUser, .createTask orphanTask,
    .createTask { ID := 0, Title := "Plan sprint", Status := "pending", UserID := 4 },
    .updateTask 1 { Title := none, Status := none, UserID := some 4 },
    .updateTask 2 { Title := none, Status := none, UserID := some 12 } ]

/-- The task created by `sampleServiceCalls`. -/
def sampleCreatedTask : Task :=
  { ID := 4, Title := "Plan sprint", Status := "pending", UserID := 4 }

/-! ### Vocabulary for task creation and task statuses -/

/-- Every stored task's status is one of the three known ones. -/
def StatusesValid (ds : DataStore) : Prop :=
  ∀ t ∈ ds.tasks, t.Status = "pending" ∨ t.Status = "in-progress" ∨ t.Status = "completed"

/-- A task with a valid status for the seeded user 2. -/
def validTask : Task := { ID := 0, Title := "Write report", Status := "pending", UserID := 2 }

/-- The seeded users with one task whose status is not a known one. -/
def bogusStatusStore : DataStore :=
  { users := NewDataStore.users,
    tasks := [{ ID := 1, Title := "Old task", Status := "bogus", UserID := 1 }] }

/-! ### Vocabulary for the HTTP handlers and the logging middleware -/

/-- A decoded user body the handler is specified to reject. -/
def UserBodyRejected (ds : DataStore) (user : User) : Prop :=
  user.Name = "" ∨ user.Email = "" ∨ user.Role = "" ∨ '@' ∉ user.Email.toList ∨
    ∃ u ∈ ds.users, u.Email = user.Email

instance (ds : DataStore) (user : User) : Decidable (UserBodyRejected ds user) :=
  inferInstanceAs (Decidable (_ ∨ _ ∨ _ ∨ _ ∨ _))

/-- The store after a sequence of `POST /api/users` requests with the given
decoded bodies, handled one after another. -/
def runUserPosts (ds : DataStore) (bodies : List User) : DataStore :=
  bodies.foldl (fun s user => (Server.handleUsers s "POST" (some user)).2) ds

/-- The emails of the stored users, in insertion order. -/
def userEmails (ds : DataStore) : List String := ds.users.map User.Email

/-- A decoded task body the handler is specified to accept. -/
def TaskBodyAccepted (ds : DataStore) (task : Task) : Prop :=
  task.Title ≠ "" ∧
  (task.Status = "pending" ∨ task.Status = "in-progress" ∨ task.Status = "completed") ∧
  task.UserID ≠ 0 ∧ ∃ u ∈ ds.users, u.ID = task.UserID

instance (ds : DataStore) (task : Task) : Decidable (TaskBodyAccepted ds task) :=
  inferInstanceAs (Decidable (_ ∧ _ ∧ _ ∧ _))

/-- The status code passed by the last `WriteHeader` call of a trace, if any. -/
def lastWriteHeader (calls : List WriterCall) : Option Int :=
  calls.reverse.findSome? (fun c =>
    match c with
    | .WriteHeader statusCode => some statusCode
    | _ => none)

/-- The store with no users and no tasks (the zero value of `DataStore`). -/
def emptyStore : DataStore := { users := [], tasks := [] }

/-- Calls that leave users and no task when run on the empty store. -/
def usersOnlyCalls : List StoreCall :=
  [ .createUser sampleUser, .createUser { sampleUser with Email := "cy@example.com" } ]

deriving instance DecidableEq for Except

/-! ## Lemmas on the `maxID` loop and on `wrapInt` -/

theorem wrapInt_succ (m : Int) (h0 : 0 ≤ m) (h1 : m < maxInt) : wrapInt (m + 1) = m + 1 := by
  unfold wrapInt maxInt at *
  omega

theorem maxUserID_eq (users : List User) :
    DataStore.maxUserID users = maxIDLoop (users.map User.ID) 0 := by
  simp [DataStore.maxUserID, maxIDLoop, List.foldl_map]

theorem maxTaskID_eq (tasks : List Task) :
    DataStore.maxTaskID tasks = maxIDLoop (tasks.map Task.ID) 0 := by
  simp [DataStore.maxTaskID, maxIDLoop, List.foldl_map]

theorem maxIDLoop_ge_init (ids : List Int) (a : Int) : a ≤ maxIDLoop ids a := by
  induction ids generalizing a with
  | nil => simp [maxIDLoop]
  | cons x xs ih =>
    simp only [maxIDLoop, List.foldl_cons]
    split
    · exact le_trans (by omega) (ih x)
    · exact ih a

theorem maxIDLoop_ge_mem (ids : List Int) (a : Int) : ∀ x ∈ ids, x ≤ maxIDLoop ids a := by
  induction ids generalizing a with
  | nil => simp
  | cons y ys ih =>
    intro x hx
    simp only [maxIDLoop, List.foldl_cons]
    rcases List.mem_cons.mp hx with rfl | hx
    · split
      · exact maxIDLoop_ge_init ys x
      · exact le_trans (by omega) (maxIDLoop_ge_init ys a)
    · exact ih _ x hx

theorem maxIDLoop_mem_or_init (ids : List Int) (a : Int) :
    maxIDLoop ids a = a ∨ maxIDLoop ids a ∈ ids := by
  induction ids generalizing a with
  | nil => simp [maxIDLoop]
  | cons y ys ih =>
    have hstep : maxIDLoop (y :: ys) a = maxIDLoop ys (if y > a then y else a) := rfl
    rw [hstep]
    split
    · rcases ih y with h | h
      · right; rw [h]; exact List.mem_cons_self _ _
      · right; exact List.mem_cons_of_mem _ h
    · rcases ih a with h | h
      · left; exact h
      · right; exact List.mem_cons_of_mem _ h

theorem maxIDLoop_eq_foldl_max (ids : List Int) (a : Int) :
    maxIDLoop ids a = ids.foldl max a := by
  induction ids generalizing a with
  | nil => rfl
  | cons y ys ih =>
    have hstep : maxIDLoop (y :: ys) a = maxIDLoop ys (if y > a then y else a) := rfl
    rw [hstep, ih, List.foldl_cons]
    congr 1
    split <;> omega

/-- When some id is non-negative, the loop started at 0 ends on the largest id. -/
theorem maxIDLoop_zero_succ_eq_nextIDSpec (ids : List Int) (h : ∃ x ∈ ids, 0 ≤ x) :
    maxIDLoop ids 0 + 1 = nextIDSpec ids := by
  cases ids with
  | nil => simp at h
  | cons a rest =>
    simp only [nextIDSpec, ← maxIDLoop_eq_foldl_max]
    have hA := maxIDLoop_ge_mem (a :: rest) 0
    have hB := maxIDLoop_mem_or_init (a :: rest) 0
    have hC := maxIDLoop_ge_mem rest a
    have hD := maxIDLoop_mem_or_init rest a
    have hE := maxIDLoop_ge_init rest a
    have hmem : maxIDLoop (a :: rest) 0 ∈ a :: rest := by
      rcases hB with h0 | hm
      · obtain ⟨x, hx, hx0⟩ := h
        have := hA x hx
        have hx_eq : x = maxIDLoop (a :: rest) 0 := by omega
        rw [← hx_eq]; exact hx
      · exact hm
    have hmem2 : maxIDLoop rest a ∈ a :: rest := by
      rcases hD with h0 | hm
      · rw [h0]; exact List.mem_cons_self _ _
      · exact List.mem_cons_of_mem _ hm
    have h1 : maxIDLoop rest a ≤ maxIDLoop (a :: rest) 0 := hA _ hmem2
    have h2 : maxIDLoop (a :: rest) 0 ≤ maxIDLoop rest a := by
      rcases List.mem_cons.mp hmem with he | hm
      · rw [he]; exact hE
      · exact hC _ hm
    omega

theorem updateLoop_eq_none_iff (id : Int) (title status : Option String)
    (userID : Option Int) (ts : List Task) :
    DataStore.updateLoop id title status userID ts = none ↔ ∀ x ∈ ts, x.ID ≠ id := by
  induction ts with
  | nil => simp [DataStore.updateLoop]
  | cons t rest ih =>
    simp only [DataStore.updateLoop, List.mem_cons, forall_eq_or_imp]
    by_cases hid : t.ID = id
    · simp [hid]
    · simp only [ne_eq, hid, not_false_eq_true, ↓reduceIte, true_and]
      rw [← ih]
      cases DataStore.updateLoop id title status userID rest with
      | none => simp
      | some p => simp

/-- A successful `updateLoop` rewrote exactly the first task with the given id. -/
theorem updateLoop_eq_some (id : Int) (title status : Option String)
    (userID : Option Int) (ts : List Task) (r : Task) (ts' : List Task)
    (h : DataStore.updateLoop id title status userID ts = some (r, ts')) :
    ∃ pre t post, ts = pre ++ t :: post ∧ (∀ x ∈ pre, x.ID ≠ id) ∧ t.ID = id ∧
      r = DataStore.applyUpdate title status userID t ∧ ts' = pre ++ r :: post := by
  induction ts generalizing ts' with
  | nil => simp [DataStore.updateLoop] at h
  | cons t rest ih =>
    simp only [DataStore.updateLoop] at h
    split at h
    · rename_i hid
      split at h
      · rename_i r0 rest0 heq
        simp only [Option.some.injEq, Prod.mk.injEq] at h
        obtain ⟨rfl, rfl⟩ := h
        obtain ⟨pre, t0, post, h1, h2, h3, h4, h5⟩ := ih rest0 heq
        refine ⟨t :: pre, t0, post, by simp [h1], ?_, h3, h4, by simp [h5]⟩
        intro x hx
        rcases List.mem_cons.mp hx with rfl | hx
        · exact hid
        · exact h2 x hx
      · simp at h
    · rename_i hid
      simp only [Option.some.injEq, Prod.mk.injEq] at h
      obtain ⟨rfl, rfl⟩ := h
      exact ⟨[], t, rest, rfl, by simp, by simpa using hid, rfl, rfl⟩

theorem applyUpdate_ID (title status : Option String) (userID : Option Int) (t : Task) :
    (DataStore.applyUpdate title status userID t).ID = t.ID := by
  cases title <;> cases status <;> cases userID <;> rfl

theorem updateLoop_ids (id : Int) (title status : Option String) (userID : Option Int)
    (ts : List Task) (r : Task) (ts' : List Task)
    (h : DataStore.updateLoop id title status userID ts = some (r, ts')) :
    ts'.map Task.ID = ts.map Task.ID := by
  obtain ⟨pre, t, post, h1, _, _, h4, h5⟩ := updateLoop_eq_some _ _ _ _ _ _ _ h
  rw [h1, h5, h4]
  simp [applyUpdate_ID]

theorem GetUserByID_eq_none_iff (ds : DataStore) (id : Int) :
    ds.GetUserByID id = none ↔ ∀ u ∈ ds.users, u.ID ≠ id := by
  simp [DataStore.GetUserByID, List.find?_eq_none]

theorem isValidStatus_iff (st : String) :
    isValidStatus st = true ↔ st = "pending" ∨ st = "in-progress" ∨ st = "completed" := by
  simp [isValidStatus]

theorem ids_append_next (ids : List Int) (hlen : (ids.length : Int) + 1 ≤ maxInt)
    (hs : ids.Pairwise (· < ·)) (hb : ∀ x ∈ ids, 1 ≤ x ∧ x ≤ (ids.length : Int)) :
    (ids ++ [wrapInt (maxIDLoop ids 0 + 1)]).Pairwise (· < ·) ∧
    ∀ x ∈ ids ++ [wrapInt (maxIDLoop ids 0 + 1)], 1 ≤ x ∧ x ≤ (ids.length : Int) + 1 := by
  have h0 := maxIDLoop_ge_init ids 0
  have hge := maxIDLoop_ge_mem ids 0
  have hle : maxIDLoop ids 0 ≤ (ids.length : Int) := by
    rcases maxIDLoop_mem_or_init ids 0 with h | h
    · rw [h]; omega
    · exact (hb _ h).2
  have hw : wrapInt (maxIDLoop ids 0 + 1) = maxIDLoop ids 0 + 1 :=
    wrapInt_succ _ h0 (by omega)
  rw [hw]
  constructor
  · rw [List.pairwise_append]
    refine ⟨hs, List.pairwise_singleton _ _, ?_⟩
    intro a ha b hb'
    rw [List.mem_singleton] at hb'
    have := hge a ha
    omega
  · intro x hx
    rcases List.mem_append.mp hx with hx | hx
    · have := hb x hx; omega
    · rw [List.mem_singleton] at hx; omega

theorem IdsInv_append_next (ids : List Int) (h : IdsInv ids) :
    IdsInv (ids ++ [wrapInt (maxIDLoop ids 0 + 1)]) := by
  intro hlen
  simp only [List.length_append, List.length_singleton, Nat.cast_add, Nat.cast_one] at hlen ⊢
  obtain ⟨hs, hb⟩ := h (by omega)
  exact ids_append_next ids hlen hs hb

theorem IdsInv_run (ds : DataStore) (call : StoreCall)
    (h : IdsInv (userIDs ds) ∧ IdsInv (taskIDs ds)) :
    IdsInv (userIDs (call.run ds)) ∧ IdsInv (taskIDs (call.run ds)) := by
  obtain ⟨hu, ht⟩ := h
  cases call with
  | createUser user =>
    refine ⟨?_, ht⟩
    have := IdsInv_append_next _ hu
    simpa [StoreCall.run, DataStore.CreateUser, userIDs, maxUserID_eq] using this
  | createTask task =>
    refine ⟨hu, ?_⟩
    have := IdsInv_append_next _ ht
    simpa [StoreCall.run, DataStore.CreateTask, taskIDs, maxTaskID_eq] using this
  | updateTask id title status userID =>
    simp only [StoreCall.run, DataStore.UpdateTask]
    split
    · rename_i t tasks' heq
      refine ⟨hu, ?_⟩
      simpa [taskIDs, updateLoop_ids _ _ _ _ _ _ _ heq] using ht
    · exact ⟨hu, ht⟩

theorem IdsInv_runStoreCalls (calls : List StoreCall) (ds : DataStore)
    (h : IdsInv (userIDs ds) ∧ IdsInv (taskIDs ds)) :
    IdsInv (userIDs (runStoreCalls ds calls)) ∧ IdsInv (taskIDs (runStoreCalls ds calls)) := by
  induction calls generalizing ds with
  | nil => exact h
  | cons c cs ih => exact ih _ (IdsInv_run ds c h)

theorem IdsInv_seed : IdsInv (userIDs NewDataStore) ∧ IdsInv (taskIDs NewDataStore) := by
  constructor <;> intro _ <;> decide

theorem statusRejected_iff (input : TaskUpdateInput) :
    Service.statusRejected input = true ↔ StatusInvalid input := by
  unfold Service.statusRejected StatusInvalid
  cases h : input.Status with
  | none => simp
  | some st =>
    have := isValidStatus_iff st
    cases hv : isValidStatus st <;> simp [hv] at this ⊢ <;> tauto

theorem userRejected_iff (ds : DataStore) (input : TaskUpdateInput) :
    Service.userRejected ds input = true ↔ UserUnknown ds input := by
  unfold Service.userRejected UserUnknown
  cases h : input.UserID with
  | none => simp
  | some uid => simp [Option.isNone_iff_eq_none, GetUserByID_eq_none_iff]

theorem GetUserByID_isSome (ds : DataStore) (id : Int)
    (h : ds.GetUserByID id ≠ none) : ∃ u ∈ ds.users, u.ID = id := by
  by_contra hc
  push_neg at hc
  exact h ((GetUserByID_eq_none_iff ds id).mpr hc)

theorem applyUpdate_eq_spec (input : TaskUpdateInput) (t : Task) :
    DataStore.applyUpdate input.Title input.Status input.UserID t = updatedTaskSpec input t := by
  obtain ⟨title, status, userID⟩ := input
  cases title <;> cases status <;> cases userID <;> rfl

/-- What a successful `Service.UpdateTask` did at the store level. -/
theorem Service_UpdateTask_ok (ds ds' : DataStore) (id : Int) (input : TaskUpdateInput)
    (r : Task) (hok : Service.UpdateTask ds id input = (.ok r, ds')) :
    ¬ (input.Title = none ∧ input.Status = none ∧ input.UserID = none) ∧
    Service.statusRejected input = false ∧ Service.userRejected ds input = false ∧
    ∃ tasks', DataStore.updateLoop id input.Title input.Status input.UserID ds.tasks
        = some (r, tasks') ∧ ds' = { ds with tasks := tasks' } := by
  unfold Service.UpdateTask at hok
  split_ifs at hok with h1 h2 h3
  · simp at hok
  · simp at hok
  · simp at hok
  refine ⟨h1, by simpa using h2, by simpa using h3, ?_⟩
  unfold DataStore.UpdateTask at hok
  cases hl : DataStore.updateLoop id input.Title input.Status input.UserID ds.tasks with
  | none => simp [hl] at hok
  | some p =>
    obtain ⟨r0, tasks0⟩ := p
    simp only [hl, Prod.mk.injEq, Except.ok.injEq] at hok
    obtain ⟨rfl, rfl⟩ := hok
    exact ⟨tasks0, rfl, rfl⟩

/-- A failing `Service.UpdateTask` hands the store back as it was. -/
theorem Service_UpdateTask_error (ds ds' : DataStore) (id : Int) (input : TaskUpdateInput)
    (e : Error) (herr : Service.UpdateTask ds id input = (.error e, ds')) : ds' = ds := by
  unfold Service.UpdateTask at herr
  split_ifs at herr with h1 h2 h3
  · simp only [Prod.mk.injEq] at herr; exact herr.2.symm
  · simp only [Prod.mk.injEq] at herr; exact herr.2.symm
  · simp only [Prod.mk.injEq] at herr; exact herr.2.symm
  unfold DataStore.UpdateTask at herr
  cases hl : DataStore.updateLoop id input.Title input.Status input.UserID ds.tasks with
  | none =>
    simp only [hl, ↓reduceIte, Prod.mk.injEq] at herr
    exact herr.2.symm
  | some p => simp [hl] at herr

theorem foldl_filterStep (status userID : String) (uid : Int) (tasks acc : List Task) :
    tasks.foldl (Service.filterStep status userID uid) acc =
      acc ++ tasks.filter (matchesFilters status userID uid) := by
  induction tasks generalizing acc with
  | nil => simp
  | cons t rest ih =>
    rw [List.foldl_cons, ih]
    unfold Service.filterStep matchesFilters
    by_cases h1 : status ≠ "" ∧ t.Status ≠ status
    · rw [if_pos h1, List.filter_cons_of_neg]
      simp only [decide_eq_true_eq]; tauto
    · rw [if_neg h1]
      by_cases h2 : userID ≠ "" ∧ t.UserID ≠ uid
      · rw [if_pos h2, List.filter_cons_of_neg]
        simp only [decide_eq_true_eq]; tauto
      · rw [if_neg h2, List.filter_cons_of_pos, List.append_assoc]
        · rfl
        · simp only [decide_eq_true_eq]; tauto

theorem splitSign_spec (cs : List Char) :
    ∃ sign, cs = sign ++ (splitSign cs).2 ∧ (sign = [] ∨ sign = ['+'] ∨ sign = ['-']) := by
  unfold splitSign
  split
  · exact ⟨['-'], rfl, Or.inr (Or.inr rfl)⟩
  · exact ⟨['+'], rfl, Or.inr (Or.inl rfl)⟩
  · exact ⟨[], rfl, Or.inl rfl⟩

/-- `Atoi` accepts only optionally signed, non-empty digit strings. -/
theorem Atoi_isSome_imp_signedDecimal (s : String) (n : Int) (h : Atoi s = some n) :
    IsSignedDecimal s := by
  obtain ⟨sign, h1, h2⟩ := splitSign_spec s.toList
  unfold Atoi at h
  simp only at h
  simp at h
  exact ⟨sign, (splitSign s.toList).2, h1, h2, h.1, h.2.1⟩

theorem abc_not_signedDecimal : ¬ IsSignedDecimal "abc" := by
  rintro ⟨sign, digits, h, hs, hne, hd⟩
  have h' : ['a', 'b', 'c'] = sign ++ digits := h
  rcases hs with rfl | rfl | rfl
  · simp only [List.nil_append] at h'
    subst h'
    exact absurd (hd 'a' (by simp)) (by decide)
  · simp at h'
  · simp at h'

theorem foldl_countStatus (tasks : List Task) (acc : Stats) :
    tasks.foldl DataStore.countStatus acc =
      { Users := acc.Users,
        Tasks :=
          { Total := acc.Tasks.Total,
            Pending := acc.Tasks.Pending + (countWithStatus tasks "pending" : Int),
            InProgress := acc.Tasks.InProgress + (countWithStatus tasks "in-progress" : Int),
            Completed := acc.Tasks.Completed + (countWithStatus tasks "completed" : Int) } } := by
  induction tasks generalizing acc with
  | nil => simp [countWithStatus]
  | cons t rest ih =>
    rw [List.foldl_cons, ih]
    unfold DataStore.countStatus countWithStatus
    by_cases h1 : t.Status = "pending"
    · simp [h1, List.countP_cons]; omega
    · by_cases h2 : t.Status = "in-progress"
      · simp [h2, List.countP_cons]; omega
      · by_cases h3 : t.Status = "completed"
        · simp [h3, List.countP_cons]; omega
        · simp [h1, h2, h3, List.countP_cons]

theorem RefersToUsers_run (ds : DataStore) (call : ServiceCall) (h : RefersToUsers ds) :
    RefersToUsers (call.run ds) := by
  cases call with
  | createUser user =>
    intro t ht
    obtain ⟨u, hu, hut⟩ := h t ht
    exact ⟨u, List.mem_append_left _ hu, hut⟩
  | createTask task =>
    simp only [ServiceCall.run, Service.CreateTask]
    split_ifs with h1 h2
    · exact h
    · exact h
    · intro t ht
      simp only [DataStore.CreateTask, List.mem_append, List.mem_singleton] at ht
      rcases ht with ht | rfl
      · exact h t ht
      · exact GetUserByID_isSome ds task.UserID (by simpa using h2)
  | updateTask id input =>
    cases hres : Service.UpdateTask ds id input with
    | mk res ds' =>
      have hrun : (ServiceCall.updateTask id input).run ds = ds' := by
        simp [ServiceCall.run, hres]
      rw [hrun]
      cases res with
      | error e =>
        rw [Service_UpdateTask_error ds ds' id input e hres]; exact h
      | ok r =>
        obtain ⟨_, _, hur, tasks', hl, rfl⟩ := Service_UpdateTask_ok ds ds' id input r hres
        obtain ⟨pre, t, post, h1, _, _, h4, h5⟩ := updateLoop_eq_some _ _ _ _ _ _ _ hl
        intro x hx
        simp only [h5, List.mem_append, List.mem_cons] at hx
        have hold : ∀ y ∈ pre ++ t :: post, ∃ u ∈ ds.users, u.ID = y.UserID := by
          intro y hy; exact h y (by rw [h1]; exact hy)
        rcases hx with hx | rfl | hx
        · exact hold x (by simp [hx])
        · rw [h4]
          cases hu : input.UserID with
          | none =>
            have : (DataStore.applyUpdate input.Title input.Status none t).UserID = t.UserID := by
              cases input.Title <;> cases input.Status <;> rfl
            rw [this]; exact hold t (by simp)
          | some uid =>
            have : (DataStore.applyUpdate input.Title input.Status (some uid) t).UserID = uid := by
              cases input.Title <;> cases input.Status <;> rfl
            rw [this]
            have hne : ds.GetUserByID uid ≠ none := by
              intro hn
              simp [Service.userRejected, hu, hn] at hur
            exact GetUserByID_isSome ds uid hne
        · exact hold x (by simp [hx])

theorem RefersToUsers_runServiceCalls (calls : List ServiceCall) (ds : DataStore)
    (h : RefersToUsers ds) : RefersToUsers (runServiceCalls ds calls) := by
  induction calls generalizing ds with
  | nil => exact h
  | cons c cs ih => exact ih _ (RefersToUsers_run ds c h)

theorem RefersToUsers_seed : RefersToUsers NewDataStore := by
  unfold RefersToUsers
  decide

theorem Service_CreateTask_error (ds ds' : DataStore) (task : Task) (e : Error)
    (herr : Service.CreateTask ds task = (.error e, ds')) :
    ds' = ds ∧ (e = Error.ErrInvalidStatus ∨ e = Error.ErrInvalidUser) := by
  unfold Service.CreateTask at herr
  split_ifs at herr with h1 h2
  · simp only [Prod.mk.injEq, Except.error.injEq] at herr
    exact ⟨herr.2.symm, Or.inl herr.1.symm⟩
  · simp only [Prod.mk.injEq, Except.error.injEq] at herr
    exact ⟨herr.2.symm, Or.inr herr.1.symm⟩
  · simp [DataStore.CreateTask] at herr

theorem Service_UpdateTask_error_kind (ds ds' : DataStore) (id : Int) (input : TaskUpdateInput)
    (e : Error) (herr : Service.UpdateTask ds id input = (.error e, ds')) :
    e = Error.ErrNoUpdateFields ∨ e = Error.ErrInvalidStatus ∨ e = Error.ErrInvalidUser ∨
      e = Error.ErrNotFound := by
  unfold Service.UpdateTask at herr
  split_ifs at herr with h1 h2 h3
  · simp only [Prod.mk.injEq, Except.error.injEq] at herr; exact Or.inl herr.1.symm
  · simp only [Prod.mk.injEq, Except.error.injEq] at herr; exact Or.inr (Or.inl herr.1.symm)
  · simp only [Prod.mk.injEq, Except.error.injEq] at herr
    exact Or.inr (Or.inr (Or.inl herr.1.symm))
  unfold DataStore.UpdateTask at herr
  cases hl : DataStore.updateLoop id input.Title input.Status input.UserID ds.tasks with
  | none =>
    simp only [hl, ↓reduceIte, Prod.mk.injEq, Except.error.injEq] at herr
    exact Or.inr (Or.inr (Or.inr herr.1.symm))
  | some p => simp [hl] at herr

theorem applyUpdate_idem (title status : Option String) (userID : Option Int) (t : Task) :
    DataStore.applyUpdate title status userID (DataStore.applyUpdate title status userID t) =
      DataStore.applyUpdate title status userID t := by
  cases title <;> cases status <;> cases userID <;> rfl

theorem updateLoop_append (id : Int) (title status : Option String) (userID : Option Int)
    (pre post : List Task) (t : Task) (hpre : ∀ x ∈ pre, x.ID ≠ id) (ht : t.ID = id) :
    DataStore.updateLoop id title status userID (pre ++ t :: post) =
      some (DataStore.applyUpdate title status userID t,
            pre ++ DataStore.applyUpdate title status userID t :: post) := by
  induction pre with
  | nil => simp [DataStore.updateLoop, ht]
  | cons p rest ih =>
    have hp : p.ID ≠ id := hpre p (List.mem_cons_self _ _)
    have := ih (fun x hx => hpre x (List.mem_cons_of_mem _ hx))
    simp [DataStore.updateLoop, hp, this]

theorem Service_CreateTask_valid (ds : DataStore) (task : Task)
    (hs : task.Status = "pending" ∨ task.Status = "in-progress" ∨ task.Status = "completed")
    (hu : ∃ u ∈ ds.users, u.ID = task.UserID) :
    Service.CreateTask ds task = ds.CreateTask task := by
  have hv : isValidStatus task.Status = true := (isValidStatus_iff _).mpr hs
  have hn : ds.GetUserByID task.UserID ≠ none := by
    intro hnone
    obtain ⟨u, hu1, hu2⟩ := hu
    exact (GetUserByID_eq_none_iff ds task.UserID).mp hnone u hu1 hu2
  cases hg : ds.GetUserByID task.UserID with
  | none => exact absurd hg hn
  | some u => simp [Service.CreateTask, hv, hg]

theorem countWithStatus_sum_le (tasks : List Task) :
    countWithStatus tasks "pending" + countWithStatus tasks "in-progress" +
      countWithStatus tasks "completed" ≤ tasks.length := by
  induction tasks with
  | nil => simp [countWithStatus]
  | cons t rest ih =>
    unfold countWithStatus at ih ⊢
    simp only [List.countP_cons, List.length_cons]
    by_cases h1 : t.Status = "pending"
    · simp [h1]; omega
    · by_cases h2 : t.Status = "in-progress"
      · simp [h2]; omega
      · by_cases h3 : t.Status = "completed"
        · simp [h3]; omega
        · simp [h1, h2, h3]; omega

theorem countWithStatus_sum_eq (tasks : List Task)
    (hv : ∀ t ∈ tasks, t.Status = "pending" ∨ t.Status = "in-progress" ∨
      t.Status = "completed") :
    countWithStatus tasks "pending" + countWithStatus tasks "in-progress" +
      countWithStatus tasks "completed" = tasks.length := by
  induction tasks with
  | nil => simp [countWithStatus]
  | cons t rest ih =>
    have ih' := ih (fun x hx => hv x (List.mem_cons_of_mem _ hx))
    unfold countWithStatus at ih' ⊢
    simp only [List.countP_cons, List.length_cons]
    rcases hv t (List.mem_cons_self _ _) with h | h | h
    · simp [h]; omega
    · simp [h]; omega
    · simp [h]; omega

theorem GetStats_fields (ds : DataStore) :
    (Service.GetStats ds).Tasks.Total = ds.tasks.length ∧
    (Service.GetStats ds).Tasks.Pending = countWithStatus ds.tasks "pending" ∧
    (Service.GetStats ds).Tasks.InProgress = countWithStatus ds.tasks "in-progress" ∧
    (Service.GetStats ds).Tasks.Completed = countWithStatus ds.tasks "completed" := by
  unfold Service.GetStats DataStore.GetStats
  simp [foldl_countStatus]

theorem StatusesValid_run (ds : DataStore) (call : ServiceCall) (h : StatusesValid ds) :
    StatusesValid (call.run ds) := by
  cases call with
  | createUser user => exact h
  | createTask task =>
    simp only [ServiceCall.run, Service.CreateTask]
    split_ifs with h1 h2
    · exact h
    · exact h
    · intro t ht
      simp only [DataStore.CreateTask, List.mem_append, List.mem_singleton] at ht
      rcases ht with ht | rfl
      · exact h t ht
      · exact (isValidStatus_iff _).mp (by simpa using h1)
  | updateTask id input =>
    cases hres : Service.UpdateTask ds id input with
    | mk res ds' =>
      have hrun : (ServiceCall.updateTask id input).run ds = ds' := by
        simp [ServiceCall.run, hres]
      rw [hrun]
      cases res with
      | error e =>
        rw [Service_UpdateTask_error ds ds' id input e hres]; exact h
      | ok r =>
        obtain ⟨_, hsr, _, tasks', hl, rfl⟩ := Service_UpdateTask_ok ds ds' id input r hres
        obtain ⟨pre, t, post, h1, _, _, h4, h5⟩ := updateLoop_eq_some _ _ _ _ _ _ _ hl
        intro x hx
        simp only [h5, List.mem_append, List.mem_cons] at hx
        have hold : ∀ y ∈ pre ++ t :: post,
            y.Status = "pending" ∨ y.Status = "in-progress" ∨ y.Status = "completed" := by
          intro y hy; exact h y (by rw [h1]; exact hy)
        rcases hx with hx | rfl | hx
        · exact hold x (by simp [hx])
        · rw [h4, applyUpdate_eq_spec]
          cases hst : input.Status with
          | none =>
            simp only [updatedTaskSpec, hst, Option.getD_none]
            exact hold t (by simp)
          | some st =>
            simp only [updatedTaskSpec, hst, Option.getD_some]
            apply (isValidStatus_iff _).mp
            simpa [Service.statusRejected, hst] using hsr
        · exact hold x (by simp [hx])

theorem StatusesValid_runServiceCalls (calls : List ServiceCall) (ds : DataStore)
    (h : StatusesValid ds) : StatusesValid (runServiceCalls ds calls) := by
  induction calls generalizing ds with
  | nil => exact h
  | cons c cs ih => exact ih _ (StatusesValid_run ds c h)

theorem StatusesValid_seed : StatusesValid NewDataStore := by
  unfold StatusesValid
  decide

theorem TrimPrefix_append (pre seg : String) : TrimPrefix (pre ++ seg) pre = seg := by
  unfold TrimPrefix
  have h1 : (pre ++ seg).toList = pre.toList ++ seg.toList := String.data_append pre seg
  have h2 : pre.toList.isPrefixOf (pre.toList ++ seg.toList) = true :=
    List.isPrefixOf_iff_prefix.mpr (List.prefix_append _ _)
  rw [h1, if_pos h2, List.drop_left]
  rfl


theorem Contains_at_iff (s : String) : Contains s "@" = true ↔ '@' ∈ s.toList := by
  unfold Contains
  rw [decide_eq_true_iff]
  have hat : ("@" : String).toList = ['@'] := rfl
  rw [hat]
  constructor
  · rintro ⟨a, b, h⟩
    rw [← h]
    simp
  · intro h
    obtain ⟨a, b, hab⟩ := List.append_of_mem h
    exact ⟨a, b, by rw [hab]; simp⟩

theorem serve_append (r : responseRecoder) (init : List WriterCall) (c : WriterCall) :
    r.serve (init ++ [c]) =
      match r.serve init with
      | none => none
      | some r1 => r1.handle c := by
  induction init generalizing r with
  | nil =>
    simp only [List.nil_append, responseRecoder.serve]
    cases r.handle c <;> rfl
  | cons a rest ih =>
    simp only [List.cons_append, responseRecoder.serve]
    cases r.handle a with
    | none => rfl
    | some r' => exact ih r'

theorem lastWriteHeader_append (init : List WriterCall) (c : WriterCall) :
    lastWriteHeader (init ++ [c]) =
      match c with
      | .WriteHeader statusCode => some statusCode
      | _ => lastWriteHeader init := by
  unfold lastWriteHeader
  rw [List.reverse_append, List.reverse_singleton, List.singleton_append,
    List.findSome?_cons]
  cases c <;> rfl

/-- When the handler returns, the recorded code is that of its last
`WriteHeader` call, or the initial one if it made none. -/
theorem serve_statusCode (calls : List WriterCall) (r r' : responseRecoder)
    (h : r.serve calls = some r') :
    r'.statusCode = (lastWriteHeader calls).getD r.statusCode := by
  induction calls using List.reverseRecOn generalizing r' with
  | nil =>
    simp only [responseRecoder.serve, Option.some.injEq] at h
    rw [← h]; rfl
  | append_singleton init c ih =>
    rw [serve_append] at h
    cases hs : r.serve init with
    | none => simp [hs] at h
    | some r1 =>
      simp only [hs] at h
      have ih1 := ih r1 hs
      rw [lastWriteHeader_append]
      cases c with
      | Header =>
        simp only [responseRecoder.handle, Option.some.injEq] at h
        rw [← h]; exact ih1
      | Write n =>
        simp only [responseRecoder.handle, Option.some.injEq] at h
        rw [← h]; exact ih1
      | WriteHeader sc =>
        simp only [responseRecoder.handle, responseRecoder.WriteHeader] at h
        split at h
        · simp at h
        · simp only [Option.some.injEq] at h
          rw [← h]; rfl

/-- A handler whose `WriteHeader` codes all lie in 100..999 returns. -/
theorem serve_isSome (calls : List WriterCall) (r : responseRecoder)
    (hv : ∀ sc, WriterCall.WriteHeader sc ∈ calls → 100 ≤ sc ∧ sc ≤ 999) :
    ∃ r', r.serve calls = some r' := by
  induction calls generalizing r with
  | nil => exact ⟨r, rfl⟩
  | cons c rest ih =>
    have hrest : ∀ sc, WriterCall.WriteHeader sc ∈ rest → 100 ≤ sc ∧ sc ≤ 999 :=
      fun sc hsc => hv sc (List.mem_cons_of_mem _ hsc)
    simp only [responseRecoder.serve]
    cases c with
    | Header => exact ih r hrest
    | Write n => exact ih _ hrest
    | WriteHeader sc =>
      have hsc := hv sc (List.mem_cons_self _ _)
      have hne : ¬ (sc < 100 ∨ sc > 999) := by omega
      simp only [responseRecoder.handle, responseRecoder.WriteHeader,
        ResponseWriter.WriteHeader, hne, ↓reduceIte]
      split_ifs <;> exact ih _ hrest

theorem handleTaskByID_eq (ds : DataStore) (seg : String) (id : Int) (input : TaskUpdateInput)
    (hid : Atoi seg = some id) :
    Server.handleTaskByID ds "PUT" ("/api/tasks/" ++ seg) (some input) =
      match Service.UpdateTask ds id input with
      | (.error err, ds') =>
        (httpError err.message
          (if err = Error.ErrNotFound then StatusNotFound
           else if err = Error.ErrInvalidStatus ∨ err = Error.ErrInvalidUser ∨
              err = Error.ErrNoUpdateFields then StatusBadRequest
           else StatusInternalServerError), ds')
      | (.ok updated, ds') => (respondJSON StatusOK (.task updated), ds') := by
  unfold Server.handleTaskByID
  simp only [ne_eq, not_true_eq_false, ↓reduceIte, TrimPrefix_append, hid]

theorem handleUsers_rejects (ds : DataStore) (user : User)
    (h : UserBodyRejected ds user) :
    (Server.handleUsers ds "POST" (some user)).1.status = 400 ∧
    (Server.handleUsers ds "POST" (some user)).2 = ds := by
  unfold Server.handleUsers
  have hm : ¬ ("POST" : String) = "GET" := by decide
  simp only [hm, ↓reduceIte]
  by_cases hf : user.Name = "" ∨ user.Email = "" ∨ user.Role = "" ∨
      ¬ Contains user.Email "@" = true
  · rw [if_pos hf]; exact ⟨rfl, rfl⟩
  · rw [if_neg hf]
    have hdup : (Service.ListUsers ds).any (fun u => u.Email == user.Email) = true := by
      rw [List.any_eq_true]
      rcases h with h | h | h | h | ⟨u, hu, he⟩
      · exact absurd (Or.inl h) hf
      · exact absurd (Or.inr (Or.inl h)) hf
      · exact absurd (Or.inr (Or.inr (Or.inl h))) hf
      · exact absurd (Or.inr (Or.inr (Or.inr (fun hc => h ((Contains_at_iff _).mp hc))))) hf
      · exact ⟨u, hu, by simpa using he⟩
    rw [if_pos hdup]; exact ⟨rfl, rfl⟩

theorem handleUsers_accepts (ds : DataStore) (user : User)
    (h : ¬ UserBodyRejected ds user) :
    ∃ created : User,
      ds.CreateUser user =
        (.ok created, { users := ds.users ++ [created], tasks := ds.tasks }) ∧
      created.Name = user.Name ∧ created.Email = user.Email ∧ created.Role = user.Role ∧
      Server.handleUsers ds "POST" (some user) =
        ({ status := 201, body := .user created },
         { users := ds.users ++ [created], tasks := ds.tasks }) := by
  unfold UserBodyRejected at h
  push_neg at h
  obtain ⟨h1, h2, h3, h4, h5⟩ := h
  refine ⟨{ user with ID := wrapInt (DataStore.maxUserID ds.users + 1) }, rfl, rfl, rfl, rfl, ?_⟩
  unfold Server.handleUsers
  have hm : ¬ ("POST" : String) = "GET" := by decide
  have hf : ¬ (user.Name = "" ∨ user.Email = "" ∨ user.Role = "" ∨
      ¬ Contains user.Email "@" = true) := by
    have := (Contains_at_iff user.Email).mpr h4
    simp [h1, h2, h3, this]
  have hdup : ¬ (Service.ListUsers ds).any (fun u => u.Email == user.Email) = true := by
    rw [List.any_eq_true]
    rintro ⟨u, hu, he⟩
    exact h5 u hu (by simpa using he)
  simp only [hm, ↓reduceIte]
  rw [if_neg hf, if_neg hdup]
  rfl

theorem handleTasks_accepts (ds : DataStore) (status userID : String) (task : Task)
    (h : TaskBodyAccepted ds task) :
    ∃ created : Task,
      Service.CreateTask ds task =
        (.ok created, { users := ds.users, tasks := ds.tasks ++ [created] }) ∧
      created.Title = task.Title ∧ created.Status = task.Status ∧
      created.UserID = task.UserID ∧
      Server.handleTasks ds "POST" status userID (some task) =
        ({ status := 201, body := .task created },
         { users := ds.users, tasks := ds.tasks ++ [created] }) := by
  obtain ⟨h1, h2, h3, h4⟩ := h
  have hc := Service_CreateTask_valid ds task h2 h4
  refine ⟨{ task with ID := wrapInt (DataStore.maxTaskID ds.tasks + 1) }, ?_, rfl, rfl, rfl, ?_⟩
  · rw [hc]; rfl
  · unfold Server.handleTasks
    have hm : ¬ ("POST" : String) = "GET" := by decide
    have hst : task.Status ≠ "" := by
      rcases h2 with h | h | h <;> rw [h] <;> decide
    have hf : ¬ (task.Title = "" ∨ task.Status = "" ∨ task.UserID = 0) := by
      simp [h1, hst, h3]
    simp only [hm, ↓reduceIte]
    rw [if_neg hf, hc]
    rfl

theorem handleTasks_rejects (ds : DataStore) (status userID : String) (task : Task)
    (h : ¬ TaskBodyAccepted ds task) :
    (Server.handleTasks ds "POST" status userID (some task)).1.status = 400 ∧
    (Server.handleTasks ds "POST" status userID (some task)).2 = ds := by
  unfold Server.handleTasks
  have hm : ¬ ("POST" : String) = "GET" := by decide
  simp only [hm, ↓reduceIte]
  by_cases hf : task.Title = "" ∨ task.Status = "" ∨ task.UserID = 0
  · rw [if_pos hf]; exact ⟨rfl, rfl⟩
  · rw [if_neg hf]
    push_neg at hf
    cases hres : Service.CreateTask ds task with
    | mk res ds' =>
      cases res with
      | error e =>
        obtain ⟨rfl, he⟩ := Service_CreateTask_error ds ds' task e hres
        rcases he with rfl | rfl <;> exact ⟨rfl, rfl⟩
      | ok created =>
        exfalso
        apply h
        unfold Service.CreateTask at hres
        split_ifs at hres with h1 h2
        · simp at hres
        · simp at hres
        · refine ⟨hf.1, (isValidStatus_iff _).mp (by simpa using h1), hf.2.2, ?_⟩
          exact GetUserByID_isSome ds task.UserID (by
            intro hn; simp [hn] at h2)

theorem Service_GetUserByID_first (ds : DataStore) (id : Int)
    (h : ∃ u ∈ ds.users, u.ID = id) :
    ∃ pre u post, ds.users = pre ++ u :: post ∧ (∀ x ∈ pre, x.ID ≠ id) ∧ u.ID = id ∧
      Service.GetUserByID ds id = .ok u := by
  have hne : ds.GetUserByID id ≠ none := by
    intro hn
    obtain ⟨u, hu, hid⟩ := h
    exact (GetUserByID_eq_none_iff ds id).mp hn u hu hid
  cases hg : ds.GetUserByID id with
  | none => exact absurd hg hne
  | some u =>
    have hg' := hg
    unfold DataStore.GetUserByID at hg'
    rw [List.find?_eq_some] at hg'
    obtain ⟨hp, pre, post, hsplit, hpre⟩ := hg'
    refine ⟨pre, u, post, hsplit, ?_, by simpa using hp, by simp [Service.GetUserByID, hg]⟩
    intro x hx
    simpa using hpre x hx

theorem Service_GetUserByID_missing (ds : DataStore) (id : Int) :
    Service.GetUserByID ds id = .error Error.ErrNotFound ↔ ∀ u ∈ ds.users, u.ID ≠ id := by
  rw [← GetUserByID_eq_none_iff]
  unfold Service.GetUserByID
  cases ds.GetUserByID id <;> simp

theorem IdsInv_emptyStore : IdsInv (userIDs emptyStore) ∧ IdsInv (taskIDs emptyStore) := by
  constructor <;> intro _ <;> exact ⟨List.Pairwise.nil, by simp [userIDs, taskIDs, emptyStore]⟩

theorem IdsInv_of_start (start : DataStore) (calls : List StoreCall)
    (hstart : start = NewDataStore ∨ start = emptyStore) :
    IdsInv (userIDs (runStoreCalls start calls)) ∧
    IdsInv (taskIDs (runStoreCalls start calls)) := by
  rcases hstart with rfl | rfl
  · exact IdsInv_runStoreCalls calls NewDataStore IdsInv_seed
  · exact IdsInv_runStoreCalls calls emptyStore IdsInv_emptyStore

/-- For an id column satisfying the invariant with room for one more element,
the `maxID + 1` of the code is the id the specification promises. -/
theorem next_id_of_IdsInv (ids : List Int) (h : IdsInv ids)
    (hlen : (ids.length : Int) + 1 ≤ maxInt) :
    wrapInt (maxIDLoop ids 0 + 1) = nextIDSpec ids := by
  obtain ⟨_, hb⟩ := h (by omega)
  have h0 := maxIDLoop_ge_init ids 0
  have hle : maxIDLoop ids 0 ≤ (ids.length : Int) := by
    rcases maxIDLoop_mem_or_init ids 0 with h | h
    · rw [h]; omega
    · exact (hb _ h).2
  rw [wrapInt_succ _ h0 (by omega)]
  cases ids with
  | nil => rfl
  | cons a rest =>
    exact maxIDLoop_zero_succ_eq_nextIDSpec _
      ⟨a, List.mem_cons_self _ _, by have := (hb a (List.mem_cons_self _ _)).1; omega⟩

/-! ## C1: `DataStore.CreateUser` -/

/-- C1: in every store state the code can be in, that is every state reached
from the seeded store or from the empty store by a finite sequence of store
calls, `CreateUser u` returns `u` with its id replaced by max(existing user
ids)+1, or by 1 when the store has no users; the user list afterwards is the
old list with exactly that returned user appended at the end, and the task
list is unchanged.  The side condition says that the user slice after the call
has a length that fits an `int`, which every Go slice has. -/
theorem CreateUser_assigns_next_id (start : DataStore) (calls : List StoreCall) (u : User)
    (hstart : start = NewDataStore ∨ start = emptyStore)
    (hlen : ((((runStoreCalls start calls).CreateUser u).2.users.length : Nat) : Int) ≤ maxInt) :
    (runStoreCalls start calls).CreateUser u =
      (.ok { u with ID := nextIDSpec (userIDs (runStoreCalls start calls)) },
       { users := (runStoreCalls start calls).users ++
           [{ u with ID := nextIDSpec (userIDs (runStoreCalls start calls)) }],
         tasks := (runStoreCalls start calls).tasks }) ∧
    ((runStoreCalls start calls).users = [] →
      nextIDSpec (userIDs (runStoreCalls start calls)) = 1) := by
  have hinv := (IdsInv_of_start start calls hstart).1
  constructor
  · have hl : ((userIDs (runStoreCalls start calls)).length : Int) + 1 ≤ maxInt := by
      simpa [DataStore.CreateUser, userIDs] using hlen
    have hid := next_id_of_IdsInv _ hinv hl
    simp only [DataStore.CreateUser, maxUserID_eq]
    rw [show List.map User.ID (runStoreCalls start calls).users =
      userIDs (runStoreCalls start calls) from rfl, hid]
  · intro hnil
    simp [userIDs, hnil, nextIDSpec]

set_option maxRecDepth 8000 in
/-- C1 witness: after three calls on the seeded store the next user gets id 5. -/
theorem CreateUser_assigns_next_id_witness :
    (NewDataStore = NewDataStore ∨ NewDataStore = emptyStore) ∧
    ((((runStoreCalls NewDataStore sampleStoreCalls).CreateUser sampleUser).2.users.length : Nat)
      : Int) ≤ maxInt ∧
    (runStoreCalls NewDataStore sampleStoreCalls).CreateUser sampleUser =
      (.ok { sampleUser with
              ID := nextIDSpec (userIDs (runStoreCalls NewDataStore sampleStoreCalls)) },
       { users := (runStoreCalls NewDataStore sampleStoreCalls).users ++
           [{ sampleUser with
                ID := nextIDSpec (userIDs (runStoreCalls NewDataStore sampleStoreCalls)) }],
         tasks := (runStoreCalls NewDataStore sampleStoreCalls).tasks }) ∧
    ((runStoreCalls NewDataStore sampleStoreCalls).users = [] →
      nextIDSpec (userIDs (runStoreCalls NewDataStore sampleStoreCalls)) = 1) :=
  ⟨Or.inl rfl, by decide,
    CreateUser_assigns_next_id NewDataStore sampleStoreCalls sampleUser (Or.inl rfl)
      (by decide)⟩

/-! ## C2: ids stay strictly increasing -/

/-- C2: in every store state reached from the seeded store by a finite sequence
of `CreateUser`, `CreateTask` and `UpdateTask` calls, the user ids are strictly
increasing in insertion order and pairwise distinct, and so are the task ids.
The two side conditions say that the slices of the state have a length that
fits an `int`, which every Go slice has. -/
theorem ids_strictly_increasing_of_reachable (calls : List StoreCall)
    (hu : ((runStoreCalls NewDataStore calls).users.length : Int) ≤ maxInt)
    (ht : ((runStoreCalls NewDataStore calls).tasks.length : Int) ≤ maxInt) :
    (userIDs (runStoreCalls NewDataStore calls)).Pairwise (· < ·) ∧
    (userIDs (runStoreCalls NewDataStore calls)).Nodup ∧
    (taskIDs (runStoreCalls NewDataStore calls)).Pairwise (· < ·) ∧
    (taskIDs (runStoreCalls NewDataStore calls)).Nodup := by
  obtain ⟨hU, hT⟩ := IdsInv_runStoreCalls calls NewDataStore IdsInv_seed
  have h1 := (hU (by simpa [userIDs] using hu)).1
  have h2 := (hT (by simpa [taskIDs] using ht)).1
  exact ⟨h1, h1.imp (fun h => ne_of_lt h), h2, h2.imp (fun h => ne_of_lt h)⟩

/-- C2 witness: after creating a user, creating a task and updating a task on
the seeded store, the ids are 1..4 in both collections. -/
theorem ids_strictly_increasing_of_reachable_witness :
    ((runStoreCalls NewDataStore sampleStoreCalls).users.length : Int) ≤ maxInt ∧
    ((runStoreCalls NewDataStore sampleStoreCalls).tasks.length : Int) ≤ maxInt ∧
    (userIDs (runStoreCalls NewDataStore sampleStoreCalls)).Pairwise (· < ·) ∧
    (userIDs (runStoreCalls NewDataStore sampleStoreCalls)).Nodup ∧
    (taskIDs (runStoreCalls NewDataStore sampleStoreCalls)).Pairwise (· < ·) ∧
    (taskIDs (runStoreCalls NewDataStore sampleStoreCalls)).Nodup :=
  ⟨by decide, by decide,
    ids_strictly_increasing_of_reachable sampleStoreCalls (by decide) (by decide)⟩

/-! ## C3, C4: validation in `Service.CreateTask` -/

/-- C3: a task whose status is none of "pending", "in-progress", "completed" is
rejected by `Service.CreateTask` with `ErrInvalidStatus`, whatever its userId,
and the store is returned unchanged. -/
theorem CreateTask_invalid_status (ds : DataStore) (task : Task)
    (h1 : task.Status ≠ "pending") (h2 : task.Status ≠ "in-progress")
    (h3 : task.Status ≠ "completed") :
    Service.CreateTask ds task = (.error Error.ErrInvalidStatus, ds) := by
  have hv : isValidStatus task.Status = false := by
    rw [← Bool.not_eq_true, isValidStatus_iff]
    simp [h1, h2, h3]
  simp [Service.CreateTask, hv]

/-- C3 witness: the status "bogus" on the seeded store. -/
theorem CreateTask_invalid_status_witness :
    bogusTask.Status ≠ "pending" ∧ bogusTask.Status ≠ "in-progress" ∧
    bogusTask.Status ≠ "completed" ∧
    Service.CreateTask NewDataStore bogusTask = (.error Error.ErrInvalidStatus, NewDataStore) :=
  ⟨by decide, by decide, by decide,
    CreateTask_invalid_status NewDataStore bogusTask (by decide) (by decide) (by decide)⟩

/-- C4 (as stated, refuted): a task whose userId matches no stored user is not
always rejected with `ErrInvalidUser`: when its status is invalid as well, the
status check comes first and the error is `ErrInvalidStatus`. -/
theorem CreateTask_unknown_user_not_always_invalid_user :
    (∀ u ∈ NewDataStore.users, u.ID ≠ bogusTask.UserID) ∧
    Service.CreateTask NewDataStore bogusTask = (.error Error.ErrInvalidStatus, NewDataStore) ∧
    (Service.CreateTask NewDataStore bogusTask).1 ≠ .error Error.ErrInvalidUser := by
  decide

/-- C4 (amended): a task with a valid status whose userId is not the id of any
stored user is rejected by `Service.CreateTask` with `ErrInvalidUser`, and the
store is returned unchanged. -/
theorem CreateTask_unknown_user (ds : DataStore) (task : Task)
    (hs : task.Status = "pending" ∨ task.Status = "in-progress" ∨ task.Status = "completed")
    (hu : ∀ u ∈ ds.users, u.ID ≠ task.UserID) :
    Service.CreateTask ds task = (.error Error.ErrInvalidUser, ds) := by
  have hv : isValidStatus task.Status = true := (isValidStatus_iff _).mpr hs
  have hn : ds.GetUserByID task.UserID = none := (GetUserByID_eq_none_iff _ _).mpr hu
  simp [Service.CreateTask, hv, hn]

/-- C4 witness: status "pending" and userId 999 on the seeded store. -/
theorem CreateTask_unknown_user_witness :
    (orphanTask.Status = "pending" ∨ orphanTask.Status = "in-progress" ∨
      orphanTask.Status = "completed") ∧
    (∀ u ∈ NewDataStore.users, u.ID ≠ orphanTask.UserID) ∧
    Service.CreateTask NewDataStore orphanTask = (.error Error.ErrInvalidUser, NewDataStore) :=
  ⟨by decide, by decide, CreateTask_unknown_user NewDataStore orphanTask (by decide) (by decide)⟩

/-! ## C5, C6: `Service.UpdateTask` -/

/-- C5: `Service.UpdateTask` fails with `ErrNoUpdateFields` if all three fields
are absent; otherwise with `ErrInvalidStatus` if a status is present and is not
one of the three known ones; otherwise with `ErrInvalidUser` if a userId is
present and no user has that id; otherwise with `ErrNotFound` if no task has
the given id; and it succeeds in every other case.  On the seeded store
`UpdateTask(999, {status: "completed"})` fails with `ErrNotFound`. -/
theorem UpdateTask_error_cases (ds : DataStore) (id : Int) (input : TaskUpdateInput) :
    errorOf (Service.UpdateTask ds id input).1 = updateTaskSpec ds id input ∧
    (Service.UpdateTask NewDataStore 999 statusOnlyInput).1 = .error Error.ErrNotFound := by
  refine ⟨?_, by decide⟩
  unfold Service.UpdateTask updateTaskSpec
  by_cases h1 : AllAbsent input
  · have h1' := h1
    unfold AllAbsent at h1'
    simp [h1, h1', errorOf]
  · have h1' := h1
    unfold AllAbsent at h1'
    rw [if_neg h1', if_neg h1]
    by_cases h2 : StatusInvalid input
    · rw [if_pos ((statusRejected_iff input).mpr h2), if_pos h2]; rfl
    · have h2' : ¬ Service.statusRejected input = true :=
        fun h => h2 ((statusRejected_iff input).mp h)
      rw [if_neg h2', if_neg h2]
      by_cases h3 : UserUnknown ds input
      · rw [if_pos ((userRejected_iff ds input).mpr h3), if_pos h3]; rfl
      · have h3' : ¬ Service.userRejected ds input = true :=
          fun h => h3 ((userRejected_iff ds input).mp h)
        rw [if_neg h3', if_neg h3]
        unfold DataStore.UpdateTask
        by_cases h4 : TaskMissing ds id
        · rw [if_pos h4, (updateLoop_eq_none_iff id _ _ _ ds.tasks).mpr h4]
          rfl
        · rw [if_neg h4]
          cases hl : DataStore.updateLoop id input.Title input.Status input.UserID ds.tasks with
          | none => exact absurd ((updateLoop_eq_none_iff id _ _ _ ds.tasks).mp hl) h4
          | some p => rfl

/-- C6: in a store with unique task ids, a successful `UpdateTask` applies only
the provided fields.  The task list afterwards is the old one in which the task
with the given id has each of title, status and userId replaced by the provided
value when one is given and kept otherwise, with its id kept; every other task,
the order and number of tasks and the user list are unchanged; the returned
task is that stored task.  With only status = "completed" given, the status
becomes "completed" and title and userId are the old ones. -/
theorem UpdateTask_applies_only_given_fields (ds ds' : DataStore) (id : Int)
    (input : TaskUpdateInput) (r : Task)
    (huniq : (taskIDs ds).Nodup)
    (hok : Service.UpdateTask ds id input = (.ok r, ds')) :
    ds'.tasks = ds.tasks.map (fun t => if t.ID = id then updatedTaskSpec input t else t) ∧
    ds'.tasks.length = ds.tasks.length ∧
    ds'.users = ds.users ∧
    (∃ old ∈ ds.tasks, old.ID = id ∧ r = updatedTaskSpec input old) ∧
    r ∈ ds'.tasks ∧ r.ID = id ∧
    (input = statusOnlyInput → ∃ old ∈ ds.tasks, old.ID = id ∧
      r.Status = "completed" ∧ r.Title = old.Title ∧ r.UserID = old.UserID) := by
  obtain ⟨_, _, _, tasks', hl, rfl⟩ := Service_UpdateTask_ok ds ds' id input r hok
  obtain ⟨pre, t, post, h1, h2, h3, h4, h5⟩ := updateLoop_eq_some _ _ _ _ _ _ _ hl
  rw [applyUpdate_eq_spec] at h4
  have hpost : ∀ x ∈ post, x.ID ≠ id := by
    intro x hx hxe
    simp only [taskIDs, h1, List.map_append, List.map_cons] at huniq
    have := (List.nodup_cons.mp (List.nodup_append.mp huniq).2.1).1
    exact this (by rw [h3, ← hxe]; exact List.mem_map_of_mem _ hx)
  have hmap : tasks' = ds.tasks.map (fun t => if t.ID = id then updatedTaskSpec input t else t) := by
    rw [h5, h1, List.map_append, List.map_cons, if_pos h3, ← h4]
    congr 1
    · symm
      calc List.map (fun t => if t.ID = id then updatedTaskSpec input t else t) pre
          = List.map (fun t => t) pre :=
            List.map_congr_left (fun x hx => if_neg (h2 x hx))
        _ = pre := List.map_id' pre
    · congr 1
      symm
      calc List.map (fun t => if t.ID = id then updatedTaskSpec input t else t) post
          = List.map (fun t => t) post :=
            List.map_congr_left (fun x hx => if_neg (hpost x hx))
        _ = post := List.map_id' post
  have hmem : t ∈ ds.tasks := by rw [h1]; simp
  refine ⟨hmap, ?_, rfl, ⟨t, hmem, h3, h4⟩, ?_, ?_, ?_⟩
  · show tasks'.length = _
    rw [hmap, List.length_map]
  · show r ∈ tasks'
    rw [h5]; simp
  · rw [h4]; exact h3
  · intro hin
    refine ⟨t, hmem, h3, ?_⟩
    rw [h4, hin]
    exact ⟨rfl, rfl, rfl⟩

/-- C6 witness: `{"status":"completed"}` applied to task 2 of the seeded store. -/
theorem UpdateTask_applies_only_given_fields_witness :
    (taskIDs NewDataStore).Nodup ∧
    Service.UpdateTask NewDataStore 2 statusOnlyInput =
      (.ok updatedSeedTask, seedAfterStatusUpdate) ∧
    seedAfterStatusUpdate.tasks =
      NewDataStore.tasks.map
        (fun t => if t.ID = 2 then updatedTaskSpec statusOnlyInput t else t) ∧
    seedAfterStatusUpdate.tasks.length = NewDataStore.tasks.length ∧
    seedAfterStatusUpdate.users = NewDataStore.users ∧
    (∃ old ∈ NewDataStore.tasks, old.ID = 2 ∧
      updatedSeedTask = updatedTaskSpec statusOnlyInput old) ∧
    updatedSeedTask ∈ seedAfterStatusUpdate.tasks ∧ updatedSeedTask.ID = 2 ∧
    (statusOnlyInput = statusOnlyInput → ∃ old ∈ NewDataStore.tasks, old.ID = 2 ∧
      updatedSeedTask.Status = "completed" ∧ updatedSeedTask.Title = old.Title ∧
      updatedSeedTask.UserID = old.UserID) :=
  ⟨by decide, by decide,
    UpdateTask_applies_only_given_fields NewDataStore seedAfterStatusUpdate 2 statusOnlyInput
      updatedSeedTask (by decide) (by decide)⟩

/-! ## C7, C8: `Service.ListTasks` -/

/-- C7: when the userId filter is empty or is parsed by `Atoi` as the integer
`n`, `ListTasks` returns, in insertion order, exactly the stored tasks `t` with
(status filter empty or `t.Status` equal to it) and (userId filter empty or
`t.UserID = n`); with both filters empty it returns all tasks. -/
theorem ListTasks_filters (ds : DataStore) (status userID : String) (n : Int)
    (h : userID = "" ∨ Atoi userID = some n) :
    Service.ListTasks ds status userID = ds.tasks.filter (matchesFilters status userID n) ∧
    Service.ListTasks ds "" "" = ds.tasks := by
  constructor
  · unfold Service.ListTasks DataStore.ListTasks
    by_cases hb : status = "" ∧ userID = ""
    · rw [if_pos hb]
      symm
      rw [List.filter_eq_self]
      intro t _
      simp [matchesFilters, hb.1, hb.2]
    · rw [if_neg hb]
      by_cases hu : userID = ""
      · simp only [hu, ne_eq, not_true_eq_false, ↓reduceIte]
        rw [foldl_filterStep, List.nil_append]
        have hf : matchesFilters status "" 0 = matchesFilters status "" n := by
          funext t; simp [matchesFilters]
        rw [hf]
      · have hA : Atoi userID = some n := h.resolve_left hu
        simp only [ne_eq, hu, not_false_eq_true, ↓reduceIte, hA]
        rw [foldl_filterStep]
        simp
  · simp [Service.ListTasks, DataStore.ListTasks]

/-- C7 witness: `userId=2` on the seeded store returns exactly task 2. -/
theorem ListTasks_filters_witness :
    (("2" : String) = "" ∨ Atoi "2" = some 2) ∧
    Service.ListTasks NewDataStore "" "2" = NewDataStore.tasks.filter (matchesFilters "" "2" 2) ∧
    Service.ListTasks NewDataStore "" "" = NewDataStore.tasks :=
  ⟨by decide, ListTasks_filters NewDataStore "" "2" 2 (by decide)⟩

/-- C8: for a non-empty userId filter that is not an optionally signed sequence
of decimal digits, `ListTasks` returns the empty sequence, whatever the status
filter is; `ListTasks` has no error result. -/
theorem ListTasks_non_numeric_userId (ds : DataStore) (status userID : String)
    (hne : userID ≠ "") (hnum : ¬ IsSignedDecimal userID) :
    Service.ListTasks ds status userID = [] := by
  have hA : Atoi userID = none := by
    cases h : Atoi userID with
    | none => rfl
    | some n => exact absurd (Atoi_isSome_imp_signedDecimal _ _ h) hnum
  unfold Service.ListTasks
  simp [hne, hA]

/-- C8 witness: `userId=abc` on the seeded store. -/
theorem ListTasks_non_numeric_userId_witness :
    ("abc" : String) ≠ "" ∧ ¬ IsSignedDecimal "abc" ∧
    Service.ListTasks NewDataStore "completed" "abc" = [] :=
  ⟨by decide, abc_not_signedDecimal,
    ListTasks_non_numeric_userId NewDataStore "completed" "abc" (by decide)
      abc_not_signedDecimal⟩

/-! ## C9: `GetStats` -/

/-- C9: `GetStats` returns the number of stored users, the number of stored
tasks, and for each of "pending", "in-progress", "completed" the number of
stored tasks with exactly that status; on the seeded store it returns
3 users and 3 tasks, one of each status. -/
theorem GetStats_counts (ds : DataStore) :
    ds.GetStats =
      { Users := { Total := ds.users.length },
        Tasks :=
          { Total := ds.tasks.length,
            Pending := countWithStatus ds.tasks "pending",
            InProgress := countWithStatus ds.tasks "in-progress",
            Completed := countWithStatus ds.tasks "completed" } } ∧
    Service.GetStats NewDataStore =
      { Users := { Total := 3 },
        Tasks := { Total := 3, Pending := 1, InProgress := 1, Completed := 1 } } := by
  refine ⟨?_, by decide⟩
  unfold DataStore.GetStats
  simp [foldl_countStatus]

/-! ## C10: every task refers to a stored user -/

/-- C10: in every store state reached from the seeded store by a finite
sequence of service calls `CreateUser`, `CreateTask`, `UpdateTask`, succeeding
or failing, every stored task's userId is the id of some stored user. -/
theorem task_user_exists_of_reachable (calls : List ServiceCall) (t : Task)
    (ht : t ∈ (runServiceCalls NewDataStore calls).tasks) :
    ∃ u ∈ (runServiceCalls NewDataStore calls).users, u.ID = t.UserID :=
  RefersToUsers_runServiceCalls calls NewDataStore RefersToUsers_seed t ht

set_option maxRecDepth 8000 in
/-- C10 witness: the task created for the freshly created user 4. -/
theorem task_user_exists_of_reachable_witness :
    sampleCreatedTask ∈ (runServiceCalls NewDataStore sampleServiceCalls).tasks ∧
    ∃ u ∈ (runServiceCalls NewDataStore sampleServiceCalls).users,
      u.ID = sampleCreatedTask.UserID :=
  ⟨by decide, task_user_exists_of_reachable sampleServiceCalls sampleCreatedTask (by decide)⟩

/-! ## C11: failed service calls do not touch the store -/

/-- C11: whenever `Service.CreateTask` or `Service.UpdateTask` returns an error,
the store's user list and task list are what they were before the call, so no
task is partially updated; the error is one of `ErrInvalidStatus`,
`ErrInvalidUser`, `ErrNoUpdateFields`, `ErrNotFound`. -/
theorem failed_service_calls_leave_store (ds ds' : DataStore) (task : Task) (id : Int)
    (input : TaskUpdateInput) (e : Error)
    (h : Service.CreateTask ds task = (.error e, ds') ∨
         Service.UpdateTask ds id input = (.error e, ds')) :
    ds'.users = ds.users ∧ ds'.tasks = ds.tasks ∧
    (e = Error.ErrInvalidStatus ∨ e = Error.ErrInvalidUser ∨ e = Error.ErrNoUpdateFields ∨
      e = Error.ErrNotFound) := by
  rcases h with h | h
  · obtain ⟨rfl, he⟩ := Service_CreateTask_error ds ds' task e h
    exact ⟨rfl, rfl, by tauto⟩
  · have hk := Service_UpdateTask_error_kind ds ds' id input e h
    rw [Service_UpdateTask_error ds ds' id input e h]
    exact ⟨rfl, rfl, by tauto⟩

/-- C11 witness: updating the missing task 999 of the seeded store. -/
theorem failed_service_calls_leave_store_witness :
    (Service.CreateTask NewDataStore bogusTask = (.error Error.ErrNotFound, NewDataStore) ∨
      Service.UpdateTask NewDataStore 999 statusOnlyInput =
        (.error Error.ErrNotFound, NewDataStore)) ∧
    NewDataStore.users = NewDataStore.users ∧ NewDataStore.tasks = NewDataStore.tasks ∧
    (Error.ErrNotFound = Error.ErrInvalidStatus ∨ Error.ErrNotFound = Error.ErrInvalidUser ∨
      Error.ErrNotFound = Error.ErrNoUpdateFields ∨ Error.ErrNotFound = Error.ErrNotFound) :=
  ⟨by decide,
    failed_service_calls_leave_store NewDataStore NewDataStore bogusTask 999 statusOnlyInput
      Error.ErrNotFound (by decide)⟩

/-! ## C12: status codes of `PUT /api/tasks/{id}` -/

/-- C12: for a PUT request to `/api/tasks/{id}` whose id segment is parsed by
`Atoi` as `id` and whose body decodes to an update input, the response status
is 200 exactly when `Service.UpdateTask` succeeds, 404 exactly when it fails
with `ErrNotFound`, 400 exactly when it fails with `ErrInvalidStatus`,
`ErrInvalidUser` or `ErrNoUpdateFields`, and it is never 500.  A body with no
update field yields 400, and id 999 with `{"status":"completed"}` on the seeded
store yields 404. -/
theorem handleTaskByID_status (ds : DataStore) (seg : String) (id : Int)
    (input : TaskUpdateInput) (hid : Atoi seg = some id) :
    ((Server.handleTaskByID ds "PUT" ("/api/tasks/" ++ seg) (some input)).1.status = 200 ↔
      ∃ t, (Service.UpdateTask ds id input).1 = .ok t) ∧
    ((Server.handleTaskByID ds "PUT" ("/api/tasks/" ++ seg) (some input)).1.status = 404 ↔
      (Service.UpdateTask ds id input).1 = .error Error.ErrNotFound) ∧
    ((Server.handleTaskByID ds "PUT" ("/api/tasks/" ++ seg) (some input)).1.status = 400 ↔
      ((Service.UpdateTask ds id input).1 = .error Error.ErrInvalidStatus ∨
       (Service.UpdateTask ds id input).1 = .error Error.ErrInvalidUser ∨
       (Service.UpdateTask ds id input).1 = .error Error.ErrNoUpdateFields)) ∧
    (Server.handleTaskByID ds "PUT" ("/api/tasks/" ++ seg) (some input)).1.status ≠ 500 ∧
    (Server.handleTaskByID ds "PUT" ("/api/tasks/" ++ seg)
      (some { Title := none, Status := none, UserID := none })).1.status = 400 ∧
    (Server.handleTaskByID NewDataStore "PUT" "/api/tasks/999"
      (some statusOnlyInput)).1.status = 404 := by
  have hempty : (Server.handleTaskByID ds "PUT" ("/api/tasks/" ++ seg)
      (some { Title := none, Status := none, UserID := none })).1.status = 400 := by
    rw [handleTaskByID_eq ds seg id _ hid]
    simp [Service.UpdateTask, httpError, StatusBadRequest]
  refine ⟨?_, ?_, ?_, ?_, hempty, by decide⟩
  all_goals rw [handleTaskByID_eq ds seg id _ hid]
  all_goals cases hres : Service.UpdateTask ds id input with
    | mk res ds' =>
      cases res with
      | error e =>
        have hk := Service_UpdateTask_error_kind ds ds' id _ e hres
        rcases hk with rfl | rfl | rfl | rfl <;>
          simp [httpError, StatusNotFound, StatusBadRequest, StatusInternalServerError]
      | ok r => simp [respondJSON, StatusOK]

/-- C12 witness: `PUT /api/tasks/2` with `{"status":"completed"}` on the seeded
store answers 200. -/
theorem handleTaskByID_status_witness :
    Atoi "2" = some 2 ∧
    (Server.handleTaskByID NewDataStore "PUT" ("/api/tasks/" ++ "2")
      (some statusOnlyInput)).1.status = 200 ∧
    ∃ t, (Service.UpdateTask NewDataStore 2 statusOnlyInput).1 = .ok t :=
  ⟨by decide, by decide,
    (handleTaskByID_status NewDataStore "2" 2 statusOnlyInput (by decide)).1.mp (by decide)⟩

/-! ## C13: `POST /api/users` -/

/-- C13: for a decoded `POST /api/users` body, the handler answers 400 and
leaves the store unchanged if name, email or role is empty, if the email has
no "@", or if some stored user has exactly that email; otherwise it answers 201
with the user created by the store, which is appended to the user list.
Hence a sequence of such requests handled one after another keeps the user
emails pairwise distinct. -/
theorem handleUsers_post (ds : DataStore) (user : User) (bodies : List User) :
    (UserBodyRejected ds user →
      (Server.handleUsers ds "POST" (some user)).1.status = 400 ∧
      (Server.handleUsers ds "POST" (some user)).2 = ds) ∧
    (¬ UserBodyRejected ds user →
      ∃ created : User,
        ds.CreateUser user =
          (.ok created, { users := ds.users ++ [created], tasks := ds.tasks }) ∧
        created.Name = user.Name ∧ created.Email = user.Email ∧ created.Role = user.Role ∧
        Server.handleUsers ds "POST" (some user) =
          ({ status := 201, body := .user created },
           { users := ds.users ++ [created], tasks := ds.tasks })) ∧
    ((userEmails ds).Nodup → (userEmails (runUserPosts ds bodies)).Nodup) := by
  refine ⟨handleUsers_rejects ds user, handleUsers_accepts ds user, ?_⟩
  induction bodies generalizing ds with
  | nil => exact id
  | cons b rest ih =>
    intro hnd
    apply ih
    show (userEmails (Server.handleUsers ds "POST" (some b)).2).Nodup
    by_cases hr : UserBodyRejected ds b
    · rw [(handleUsers_rejects ds b hr).2]; exact hnd
    · obtain ⟨created, _, _, he, _, hh⟩ := handleUsers_accepts ds b hr
      rw [hh]
      unfold UserBodyRejected at hr
      push_neg at hr
      simp only [userEmails, List.map_append, List.map_cons, List.map_nil]
      rw [List.nodup_append]
      refine ⟨hnd, List.nodup_singleton _, ?_⟩
      intro x hx hx'
      rw [List.mem_singleton] at hx'
      obtain ⟨u, hu, hue⟩ := List.mem_map.mp hx
      exact hr.2.2.2.2 u hu (by rw [hue, hx', he])

/-! ## C14: `POST /api/tasks` -/

/-- C14: for a decoded `POST /api/tasks` body, the handler answers 201 with the
created task exactly when the title is non-empty, the status is one of
"pending", "in-progress", "completed", the userId is non-zero and is the id of
a stored user; in every other case it answers 400 and the store is unchanged;
it never answers 500. -/
theorem handleTasks_post (ds : DataStore) (status userID : String) (task : Task) :
    ((Server.handleTasks ds "POST" status userID (some task)).1.status = 201 ↔
      TaskBodyAccepted ds task) ∧
    (TaskBodyAccepted ds task →
      ∃ created : Task,
        Service.CreateTask ds task =
          (.ok created, { users := ds.users, tasks := ds.tasks ++ [created] }) ∧
        created.Title = task.Title ∧ created.Status = task.Status ∧
        created.UserID = task.UserID ∧
        Server.handleTasks ds "POST" status userID (some task) =
          ({ status := 201, body := .task created },
           { users := ds.users, tasks := ds.tasks ++ [created] })) ∧
    (¬ TaskBodyAccepted ds task →
      (Server.handleTasks ds "POST" status userID (some task)).1.status = 400 ∧
      (Server.handleTasks ds "POST" status userID (some task)).2 = ds) ∧
    (Server.handleTasks ds "POST" status userID (some task)).1.status ≠ 500 := by
  refine ⟨?_, handleTasks_accepts ds status userID task,
    handleTasks_rejects ds status userID task, ?_⟩
  · constructor
    · intro h201
      by_contra hn
      rw [(handleTasks_rejects ds status userID task hn).1] at h201
      exact absurd h201 (by decide)
    · intro ha
      obtain ⟨created, _, _, _, _, hh⟩ := handleTasks_accepts ds status userID task ha
      rw [hh]
  · by_cases ha : TaskBodyAccepted ds task
    · obtain ⟨created, _, _, _, _, hh⟩ := handleTasks_accepts ds status userID task ha
      rw [hh]
      show (201 : Int) ≠ 500
      decide
    · rw [(handleTasks_rejects ds status userID task ha).1]; decide

/-! ## C15: looking a user up by id -/

/-- C15: `Service.GetUserByID(id)` fails with `ErrNotFound` exactly when no
stored user has that id; otherwise it returns the first stored user, in
insertion order, whose id is `id`.  `GET /api/users/{id}` answers 200 with that
user, 404 when no user has the id, and 400 when the segment after
`/api/users/` is not parsed as an integer. -/
theorem GetUserByID_contract (ds : DataStore) (id : Int) (seg : String) :
    (Service.GetUserByID ds id = .error Error.ErrNotFound ↔ ∀ u ∈ ds.users, u.ID ≠ id) ∧
    ((∃ u ∈ ds.users, u.ID = id) →
      ∃ pre u post, ds.users = pre ++ u :: post ∧ (∀ x ∈ pre, x.ID ≠ id) ∧ u.ID = id ∧
        Service.GetUserByID ds id = .ok u ∧
        (Atoi seg = some id →
          Server.handleUserByID ds "GET" ("/api/users/" ++ seg) =
            { status := 200, body := .user u })) ∧
    (Atoi seg = some id → (∀ u ∈ ds.users, u.ID ≠ id) →
      (Server.handleUserByID ds "GET" ("/api/users/" ++ seg)).status = 404) ∧
    (Atoi seg = none →
      (Server.handleUserByID ds "GET" ("/api/users/" ++ seg)).status = 400) ∧
    (Server.handleUserByID NewDataStore "GET" "/api/users/abc").status = 400 := by
  refine ⟨Service_GetUserByID_missing ds id, ?_, ?_, ?_, by decide⟩
  · intro h
    obtain ⟨pre, u, post, h1, h2, h3, h4⟩ := Service_GetUserByID_first ds id h
    refine ⟨pre, u, post, h1, h2, h3, h4, ?_⟩
    intro hid
    unfold Server.handleUserByID
    simp only [ne_eq, not_true_eq_false, ↓reduceIte, TrimPrefix_append, hid, h4]
    rfl
  · intro hid hmiss
    have := (Service_GetUserByID_missing ds id).mpr hmiss
    unfold Server.handleUserByID
    simp only [ne_eq, not_true_eq_false, ↓reduceIte, TrimPrefix_append, hid, this]
    rfl
  · intro hid
    unfold Server.handleUserByID
    simp only [ne_eq, not_true_eq_false, ↓reduceIte, TrimPrefix_append, hid]
    rfl

/-! ## C17: `Service.CreateTask` on valid input -/

/-- C17: in every store state the code can be in, that is every state reached
from the seeded store or from the empty store by a finite sequence of store
calls, for every task with a valid status and the userId of a stored user,
`Service.CreateTask` succeeds and returns the task with its id replaced by
max(existing task ids)+1, or 1 if there are no tasks, and with title, status
and userId as given; the task list afterwards is the old list with exactly
that returned task appended, and the user list is unchanged.  The side
condition says that the task slice after the call has a length that fits an
`int`, which every Go slice has. -/
theorem CreateTask_assigns_next_id (start : DataStore) (calls : List StoreCall) (task : Task)
    (hstart : start = NewDataStore ∨ start = emptyStore)
    (hs : task.Status = "pending" ∨ task.Status = "in-progress" ∨ task.Status = "completed")
    (hu : ∃ u ∈ (runStoreCalls start calls).users, u.ID = task.UserID)
    (hlen : (((Service.CreateTask (runStoreCalls start calls) task).2.tasks.length : Nat) : Int)
      ≤ maxInt) :
    Service.CreateTask (runStoreCalls start calls) task =
      (.ok { task with ID := nextIDSpec (taskIDs (runStoreCalls start calls)) },
       { users := (runStoreCalls start calls).users,
         tasks := (runStoreCalls start calls).tasks ++
           [{ task with ID := nextIDSpec (taskIDs (runStoreCalls start calls)) }] }) ∧
    ((runStoreCalls start calls).tasks = [] →
      nextIDSpec (taskIDs (runStoreCalls start calls)) = 1) := by
  have hinv := (IdsInv_of_start start calls hstart).2
  have hc := Service_CreateTask_valid (runStoreCalls start calls) task hs hu
  constructor
  · rw [hc] at hlen ⊢
    have hl : ((taskIDs (runStoreCalls start calls)).length : Int) + 1 ≤ maxInt := by
      simpa [DataStore.CreateTask, taskIDs] using hlen
    have hid := next_id_of_IdsInv _ hinv hl
    simp only [DataStore.CreateTask, maxTaskID_eq]
    rw [show List.map Task.ID (runStoreCalls start calls).tasks =
      taskIDs (runStoreCalls start calls) from rfl, hid]
  · intro hnil
    simp [taskIDs, hnil, nextIDSpec]

set_option maxRecDepth 8000 in
/-- C17 witness: two users created on the empty store, then the first task,
which gets id 1. -/
theorem CreateTask_assigns_next_id_witness :
    (emptyStore = NewDataStore ∨ emptyStore = emptyStore) ∧
    (validTask.Status = "pending" ∨ validTask.Status = "in-progress" ∨
      validTask.Status = "completed") ∧
    (∃ u ∈ (runStoreCalls emptyStore usersOnlyCalls).users, u.ID = validTask.UserID) ∧
    (((Service.CreateTask (runStoreCalls emptyStore usersOnlyCalls) validTask).2.tasks.length
      : Nat) : Int) ≤ maxInt ∧
    Service.CreateTask (runStoreCalls emptyStore usersOnlyCalls) validTask =
      (.ok { validTask with
              ID := nextIDSpec (taskIDs (runStoreCalls emptyStore usersOnlyCalls)) },
       { users := (runStoreCalls emptyStore usersOnlyCalls).users,
         tasks := (runStoreCalls emptyStore usersOnlyCalls).tasks ++
           [{ validTask with
                ID := nextIDSpec (taskIDs (runStoreCalls emptyStore usersOnlyCalls)) }] }) ∧
    ((runStoreCalls emptyStore usersOnlyCalls).tasks = [] →
      nextIDSpec (taskIDs (runStoreCalls emptyStore usersOnlyCalls)) = 1) :=
  ⟨Or.inr rfl, by decide, by decide, by decide,
    CreateTask_assigns_next_id emptyStore usersOnlyCalls validTask (Or.inr rfl)
      (by decide) (by decide) (by decide)⟩

/-! ## C18: the logging middleware -/

/-- C18: the level chosen by `loggingLine` is ERROR for a status code of 500 or
more, WARN for 400..499 and INFO below 400, with the colour tag Cyan for
300..399 and Green below 300.  Whenever the middleware logs a request, the
status code it logs is the one passed by the handler's last `WriteHeader` call,
or 200 if it made none; it logs whenever every code the handler passes lies in
100..999, and in particular when the handler never calls `WriteHeader`.  A
handler whose first `WriteHeader` code is 0 panics in the writer and is not
logged. -/
theorem Logger_level_and_status (code : Int) (w : ResponseWriter) (next : List WriterCall)
    (method path : String) (elapsed : Int) :
    (500 ≤ code → (loggingLine method path code elapsed).level = "ERROR") ∧
    (400 ≤ code → code ≤ 499 → (loggingLine method path code elapsed).level = "WARN") ∧
    (code < 400 → (loggingLine method path code elapsed).level = "INFO") ∧
    (300 ≤ code → code ≤ 399 →
      (loggingLine method path code elapsed).colorFn = Color.Cyan) ∧
    (code < 300 → (loggingLine method path code elapsed).colorFn = Color.Green) ∧
    (loggingLine method path code elapsed).statusCode = code ∧
    (∀ line, Logger w next method path elapsed = some line →
      line = loggingLine method path ((lastWriteHeader next).getD 200) elapsed) ∧
    ((∀ sc, WriterCall.WriteHeader sc ∈ next → 100 ≤ sc ∧ sc ≤ 999) →
      Logger w next method path elapsed =
        some (loggingLine method path ((lastWriteHeader next).getD 200) elapsed)) ∧
    ((∀ sc, WriterCall.WriteHeader sc ∉ next) →
      Logger w next method path elapsed = some (loggingLine method path 200 elapsed)) ∧
    Logger { wroteHeader := false } [.WriteHeader 0] method path elapsed = none ∧
    (lastWriteHeader [] = none ∧
      ∀ (init : List WriterCall) (c : WriterCall),
        lastWriteHeader (init ++ [c]) =
          match c with
          | .WriteHeader statusCode => some statusCode
          | _ => lastWriteHeader init) := by
  have hlog : ∀ line, Logger w next method path elapsed = some line →
      line = loggingLine method path ((lastWriteHeader next).getD 200) elapsed := by
    intro line h
    unfold Logger at h
    simp only at h
    cases hs : responseRecoder.serve { ResponseWriter := w, statusCode := StatusOK } next with
    | none => simp [hs] at h
    | some r1 =>
      simp only [hs, Option.some.injEq] at h
      rw [← h, serve_statusCode next _ r1 hs]
      rfl
  have hsome : (∀ sc, WriterCall.WriteHeader sc ∈ next → 100 ≤ sc ∧ sc ≤ 999) →
      Logger w next method path elapsed =
        some (loggingLine method path ((lastWriteHeader next).getD 200) elapsed) := by
    intro hv
    obtain ⟨r1, hs⟩ := serve_isSome next { ResponseWriter := w, statusCode := StatusOK } hv
    have hl : Logger w next method path elapsed =
        some (loggingLine method path r1.statusCode elapsed) := by
      unfold Logger
      simp only [hs]
    rw [hl, hlog _ hl]
  refine ⟨?_, ?_, ?_, ?_, ?_, ?_, hlog, hsome, ?_, rfl, rfl, lastWriteHeader_append⟩
  · intro h; simp [loggingLine, h]
  · intro h1 h2
    have : ¬ code ≥ 500 := by omega
    simp [loggingLine, this, h1]
  · intro h
    have h1 : ¬ code ≥ 500 := by omega
    have h2 : ¬ code ≥ 400 := by omega
    unfold loggingLine
    rw [if_neg h1, if_neg h2]
    split <;> rfl
  · intro h1 h2
    have h3 : ¬ code ≥ 500 := by omega
    have h4 : ¬ code ≥ 400 := by omega
    simp [loggingLine, h3, h4, h1]
  · intro h
    have h1 : ¬ code ≥ 500 := by omega
    have h2 : ¬ code ≥ 400 := by omega
    have h3 : ¬ code ≥ 300 := by omega
    simp [loggingLine, h1, h2, h3]
  · unfold loggingLine
    split_ifs <;> rfl
  · intro hnone
    have hl : lastWriteHeader next = none := by
      unfold lastWriteHeader
      rw [List.findSome?_eq_none_iff]
      intro c hc
      cases c with
      | Header => rfl
      | Write n => rfl
      | WriteHeader sc => exact absurd (List.mem_reverse.mp hc) (hnone sc)
    rw [hsome (fun sc hsc => absurd hsc (hnone sc)), hl]
    rfl

/-! ## C19: statuses stay valid and the counters add up -/

/-- C19: in every store state reached from the seeded store by a finite
sequence of service calls, every stored task's status is one of "pending",
"in-progress", "completed", and the three status counters of `GetStats` add up
to the task total.  In an arbitrary store state the three counters add up to
at most the total, and a store with a task of another status shows the sum
can be smaller. -/
theorem stats_add_up_of_reachable (calls : List ServiceCall) :
    (∀ t ∈ (runServiceCalls NewDataStore calls).tasks,
      t.Status = "pending" ∨ t.Status = "in-progress" ∨ t.Status = "completed") ∧
    (Service.GetStats (runServiceCalls NewDataStore calls)).Tasks.Pending +
      (Service.GetStats (runServiceCalls NewDataStore calls)).Tasks.InProgress +
      (Service.GetStats (runServiceCalls NewDataStore calls)).Tasks.Completed =
      (Service.GetStats (runServiceCalls NewDataStore calls)).Tasks.Total ∧
    (∀ ds : DataStore,
      (Service.GetStats ds).Tasks.Pending + (Service.GetStats ds).Tasks.InProgress +
        (Service.GetStats ds).Tasks.Completed ≤ (Service.GetStats ds).Tasks.Total) ∧
    (Service.GetStats bogusStatusStore).Tasks.Pending +
      (Service.GetStats bogusStatusStore).Tasks.InProgress +
      (Service.GetStats bogusStatusStore).Tasks.Completed <
      (Service.GetStats bogusStatusStore).Tasks.Total := by
  have hv := StatusesValid_runServiceCalls calls NewDataStore StatusesValid_seed
  refine ⟨hv, ?_, ?_, by decide⟩
  · obtain ⟨h1, h2, h3, h4⟩ := GetStats_fields (runServiceCalls NewDataStore calls)
    rw [h1, h2, h3, h4]
    exact_mod_cast countWithStatus_sum_eq _ hv
  · intro ds
    obtain ⟨h1, h2, h3, h4⟩ := GetStats_fields ds
    rw [h1, h2, h3, h4]
    exact_mod_cast countWithStatus_sum_le ds.tasks

/-! ## C20: `Service.UpdateTask` is idempotent -/

/-- C20: if `UpdateTask(id, input)` succeeds, then the same call on the
resulting store succeeds as well, returns the same task and leaves the store
equal to the store after the first call. -/
theorem UpdateTask_idempotent (ds ds' : DataStore) (id : Int) (input : TaskUpdateInput)
    (r : Task) (hok : Service.UpdateTask ds id input = (.ok r, ds')) :
    Service.UpdateTask ds' id input = (.ok r, ds') := by
  obtain ⟨h1, h2, h3, tasks', hl, rfl⟩ := Service_UpdateTask_ok ds ds' id input r hok
  obtain ⟨pre, t, post, e1, e2, e3, e4, e5⟩ := updateLoop_eq_some _ _ _ _ _ _ _ hl
  have hr : r.ID = id := by rw [e4, applyUpdate_ID]; exact e3
  have hl2 : DataStore.updateLoop id input.Title input.Status input.UserID tasks' =
      some (r, tasks') := by
    rw [e5, updateLoop_append id _ _ _ pre post r e2 hr]
    have : DataStore.applyUpdate input.Title input.Status input.UserID r = r := by
      rw [e4, applyUpdate_idem]
    rw [this]
  have h3' : Service.userRejected { ds with tasks := tasks' } input = false := h3
  unfold Service.UpdateTask
  rw [if_neg h1, if_neg (by simp [h2]), if_neg (by simp [h3'])]
  simp [DataStore.UpdateTask, hl2]

/-- C20 witness: `{"status":"completed"}` applied twice to task 2 of the seeded
store. -/
theorem UpdateTask_idempotent_witness :
    Service.UpdateTask NewDataStore 2 statusOnlyInput =
      (.ok updatedSeedTask, seedAfterStatusUpdate) ∧
    Service.UpdateTask seedAfterStatusUpdate 2 statusOnlyInput =
      (.ok updatedSeedTask, seedAfterStatusUpdate) :=
  ⟨by decide,
    UpdateTask_idempotent NewDataStore seedAfterStatusUpdate 2 statusOnlyInput updatedSeedTask
      (by decide)⟩

end TaskRepo
